import Mathlib

/-!
Verification of the tooling-migration orchestrator
(`scripts/migrate-to-biome.js`): a shallow embedding of the script's data
model and pipeline, with theorems settling the specification's claims.

Modelling conventions:
* The filesystem is an association list from path strings to file data.
  `package.json` contents are modelled structurally (`FData.json`), a file
  whose text does not parse as a JSON object is `FData.bad`, directories
  are `FData.dir`, and other file contents are opaque (`FData.blob`).
* JavaScript exceptions are modelled with `Except FS _`: the error value
  carries the filesystem state at the moment of the throw, matching the
  fact that `fs` mutations made before the throw persist.
* The two external package-manager invocations (`execSync`) are modelled by
  an oracle (`Ext`): whether each command succeeds, and the effect the
  external tool has on the `package.json` manifest.  Per-file copy failure
  of `fs.copyFileSync` is likewise an oracle.
-/

set_option autoImplicit false

namespace BiomeMigration

/-- JSON-like value trees; used for the generated Biome configuration
document produced by `generateBiomeConfig`. -/
inductive JVal where
  | str (s : String)
  | num (n : Int)
  | bool (b : Bool)
  | arr (xs : List JVal)
  | obj (fields : List (String × JVal))

/-- In-memory view of a parsed `package.json`.  The `eslintConfig` and
`prettier` booleans record "field present and truthy" (the script only ever
tests these fields with JavaScript truthiness).  All remaining top-level
fields are kept opaque in `others`. -/
structure Manifest where
  dependencies : Option (List (String × String))
  devDependencies : Option (List (String × String))
  scripts : Option (List (String × String))
  eslintConfig : Bool
  prettier : Bool
  others : List (String × String)
deriving DecidableEq

/-- Contents of a file (or directory) in the modelled filesystem. -/
inductive FData where
  | json (m : Manifest)
  | conf (v : JVal)
  | blob (n : Nat)
  | bad
  | dir

/-- The filesystem: an association list from absolute path to contents. -/
abbrev FS := List (String × FData)

/-- First-match association-list lookup (model of reading a path). -/
def lookupFS : FS → String → Option FData
  | [], _ => none
  | (p, d) :: rest, q => if p = q then some d else lookupFS rest q

/-- Model of `fs.unlinkSync`: drop every entry at the given path. -/
def removeFS (fs : FS) (p : String) : FS :=
  fs.filter (fun e => decide (e.1 ≠ p))

/-- Model of `fs.writeFileSync` / `fs.copyFileSync` destination /
`fs.mkdirSync`: (over)write the entry at the given path. -/
def writeFS (fs : FS) (p : String) (d : FData) : FS :=
  (p, d) :: removeFS fs p

/-- Model of `fs.existsSync`. -/
def existsSync (fs : FS) (p : String) : Bool :=
  (lookupFS fs p).isSome

/-- Model of `path.join` (the script only ever joins simple segments). -/
def pathJoin (a b : String) : String := a ++ "/" ++ b

/-- Is the first character list an initial segment of the second? -/
def isPrefList : List Char → List Char → Bool
  | [], _ => true
  | _ :: _, [] => false
  | a :: as, b :: bs => a == b && isPrefList as bs

/-- Is the first character list a contiguous sublist of the second? -/
def isSubList (needle : List Char) : List Char → Bool
  | [] => needle.isEmpty
  | c :: rest => isPrefList needle (c :: rest) || isSubList needle rest

/-- Model of JavaScript `String.prototype.includes`. -/
def strIncludes (s sub : String) : Bool :=
  isSubList sub.data s.data

theorem lookupFS_removeFS (fs : FS) (p q : String) :
    lookupFS (removeFS fs p) q = if p = q then none else lookupFS fs q := by
  induction fs with
  | nil => simp [removeFS, lookupFS]
  | cons e rest ih =>
    obtain ⟨a, d⟩ := e
    by_cases hap : a = p
    · subst hap
      by_cases haq : a = q
      · subst haq
        simp [removeFS, lookupFS] at ih ⊢
        simpa [removeFS] using ih
      · simp [removeFS, lookupFS, haq] at ih ⊢
        simpa [removeFS] using ih
    · by_cases haq : a = q
      · subst haq
        have hpq : p ≠ a := fun h => hap h.symm
        simp [removeFS, lookupFS, hap, hpq]
      · simp [removeFS, lookupFS, hap, haq] at ih ⊢
        simpa [removeFS] using ih

theorem lookupFS_writeFS (fs : FS) (p q : String) (d : FData) :
    lookupFS (writeFS fs p d) q = if p = q then some d else lookupFS fs q := by
  by_cases h : p = q
  · simp [writeFS, lookupFS, h]
  · simp [writeFS, lookupFS, h, lookupFS_removeFS]

theorem existsSync_writeFS_ne (fs : FS) (p q : String) (d : FData) (h : p ≠ q) :
    existsSync (writeFS fs p d) q = existsSync fs q := by
  simp [existsSync, lookupFS_writeFS, h]

theorem existsSync_removeFS (fs : FS) (p q : String) :
    existsSync (removeFS fs p) q = true → existsSync fs q = true := by
  simp only [existsSync, lookupFS_removeFS]
  intro h
  by_cases hpq : p = q
  · simp [hpq] at h
  · simpa [hpq] using h

theorem lookupFS_removeFS_none (fs : FS) (p q : String) :
    lookupFS fs q = none → lookupFS (removeFS fs p) q = none := by
  intro h
  rw [lookupFS_removeFS]
  by_cases hpq : p = q <;> simp [hpq, h]

theorem string_data_append (a b : String) : (a ++ b).data = a.data ++ b.data := rfl

theorem string_eq_of_data (a b : String) (h : a.data = b.data) : a = b := by
  cases a; cases b; exact congrArg String.mk h

theorem pathJoin_data (a b : String) :
    (pathJoin a b).data = a.data ++ '/' :: b.data := by
  simp [pathJoin, string_data_append]

theorem list_append_cancel {α : Type} :
    ∀ (a b c : List α), a ++ b = a ++ c → b = c := by
  intro a
  induction a with
  | nil => intro b c h; simpa using h
  | cons x xs ih =>
    intro b c h
    simp only [List.cons_append, List.cons.injEq] at h
    exact ih b c h.2

/-- Joining the same root with different leaf names gives different paths. -/
theorem pathJoin_ne_of_ne (r : String) {a b : String} (h : a ≠ b) :
    pathJoin r a ≠ pathJoin r b := by
  intro he
  apply h
  have hd := congrArg String.data he
  rw [pathJoin_data, pathJoin_data] at hd
  have := list_append_cancel _ _ _ hd
  exact string_eq_of_data _ _ (List.cons.inj this).2

/-- A file name with no slash never equals a path inside a subdirectory of
the same root. -/
theorem pathJoin_ne_nested (r B g : String) {f : String}
    (hf : f.data.contains '/' = false) :
    pathJoin r f ≠ pathJoin (pathJoin r B) g := by
  intro he
  have hd := congrArg String.data he
  rw [pathJoin_data, pathJoin_data, pathJoin_data] at hd
  rw [List.append_assoc, List.cons_append] at hd
  have h2 := list_append_cancel _ _ _ hd
  have h3 : f.data = B.data ++ '/' :: g.data := (List.cons.inj h2).2
  have : f.data.contains '/' = true := by
    rw [h3]
    simp only [List.contains_iff_exists_mem_beq]
    exact ⟨'/', by simp, by simp⟩
  rw [this] at hf
  exact absurd hf (by simp)

/-- A root path never equals a path strictly inside it. -/
theorem ne_pathJoin_self (a g : String) : a ≠ pathJoin a g := by
  intro he
  have hd := congrArg String.data he
  rw [pathJoin_data] at hd
  have : a.data ++ ([] : List Char) = a.data ++ '/' :: g.data := by
    rw [List.append_nil]; exact hd
  have := list_append_cancel _ _ _ this
  exact List.noConfusion this.symm

/-! ## Constants from the script -/

/-- `CONFIG_FILES.eslint`: candidate standalone ESLint config file names. -/
def CONFIG_FILES_eslint : List String :=
  [".eslintrc", ".eslintrc.js", ".eslintrc.cjs", ".eslintrc.json",
   ".eslintrc.yml", ".eslintrc.yaml"]

/-- `CONFIG_FILES.prettier`: candidate standalone Prettier config file names. -/
def CONFIG_FILES_prettier : List String :=
  [".prettierrc", ".prettierrc.js", ".prettierrc.cjs", ".prettierrc.json",
   ".prettierrc.yml", ".prettierrc.yaml", "prettier.config.js",
   "prettier.config.cjs"]

/-- `PACKAGES_TO_REMOVE`: the fixed list of legacy package names. -/
def PACKAGES_TO_REMOVE : List String :=
  ["eslint", "@typescript-eslint/parser", "@typescript-eslint/eslint-plugin",
   "eslint-config-prettier", "eslint-plugin-prettier", "prettier"]

/-- Name of the backup directory created under the project root. -/
def backupDirName : String := ".biome-migration-backup"

/-- Sentinel entry pushed for an embedded `eslintConfig` manifest field. -/
def eslintSentinel : String := "package.json (eslintConfig field)"

/-- Sentinel entry pushed for an embedded `prettier` manifest field. -/
def prettierSentinel : String := "package.json (prettier field)"

/-! ## Detection (`findExistingConfigs`) -/

/-- Result of detection: the two named lists of `findExistingConfigs`. -/
structure Found where
  eslint : List String
  prettier : List String
deriving DecidableEq

/-- Model of `findExistingConfigs`: filter the fixed candidate lists by
existence, then parse `package.json` (if present) and append the embedded
field sentinels.  `JSON.parse` of an unparsable manifest throws, which the
function does not catch: this is the `.error` case. -/
def findExistingConfigs (rootDir : String) (fs : FS) : Except FS Found :=
  let es := CONFIG_FILES_eslint.filter (fun f => existsSync fs (pathJoin rootDir f))
  let pr := CONFIG_FILES_prettier.filter (fun f => existsSync fs (pathJoin rootDir f))
  let pkgPath := pathJoin rootDir "package.json"
  match lookupFS fs pkgPath with
  | none => .ok { eslint := es, prettier := pr }
  | some (.json m) =>
      .ok { eslint := es ++ (if m.eslintConfig then [eslintSentinel] else []),
            prettier := pr ++ (if m.prettier then [prettierSentinel] else []) }
  | some _ => .error fs

/-! ## External-process and copy-failure oracle -/

/-- Environment oracle for the effectful collaborators: per-file
`fs.copyFileSync` failure, and the two `execSync` invocations (whether each
exits zero, and the effect the external package manager has on the
`package.json` manifest: `none` models an absent file). -/
structure Ext where
  copyFail : String → Bool
  installOk : Bool
  installEffect : Option Manifest → Option Manifest
  uninstallOk : Bool
  uninstallEffect : List String → Option Manifest → Option Manifest

/-- Apply an external tool's manifest effect to the filesystem.  Only the
`package.json` entry is touched; an existing entry that is not a parsed
manifest is left alone (the external tool's behaviour on a malformed
manifest is outside the model). -/
def applyManifestEffect (rootDir : String) (fs : FS)
    (eff : Option Manifest → Option Manifest) : FS :=
  match lookupFS fs (pathJoin rootDir "package.json") with
  | some (.json m) =>
      match eff (some m) with
      | some m' => writeFS fs (pathJoin rootDir "package.json") (.json m')
      | none => removeFS fs (pathJoin rootDir "package.json")
  | none =>
      match eff none with
      | some m' => writeFS fs (pathJoin rootDir "package.json") (.json m')
      | none => fs
  | some _ => fs

/-! ## Backup (`backupConfigs`) -/

/-- The `{ backupDir, backedUp }` record returned by `backupConfigs`. -/
structure BackupRecord where
  backupDir : String
  backedUp : List String
deriving DecidableEq

/-- The `forEach` body of `backupConfigs` over the concatenated config
lists: skip entries mentioning `package.json`, copy existing sources into
the backup directory, record successes.  A `copyFileSync` failure throws,
aborting the whole loop (`.error`, carrying the filesystem as mutated so
far). -/
def backupLoop (ext : Ext) (rootDir bdir : String) :
    List String → FS → List String → Except FS (List String × FS)
  | [], fs, acc => .ok (acc, fs)
  | f :: rest, fs, acc =>
    if strIncludes f "package.json" then backupLoop ext rootDir bdir rest fs acc
    else
      match lookupFS fs (pathJoin rootDir f) with
      | some d =>
          if ext.copyFail f then .error fs
          else backupLoop ext rootDir bdir rest
                 (writeFS fs (pathJoin bdir f) d) (acc ++ [f])
      | none => backupLoop ext rootDir bdir rest fs acc

/-- Model of `backupConfigs`: create the fixed-name backup directory if
absent, then copy each detected standalone file. -/
def backupConfigs (ext : Ext) (rootDir : String) (configs : Found) (fs : FS) :
    Except FS (BackupRecord × FS) :=
  let bdir := pathJoin rootDir backupDirName
  let fs0 := if existsSync fs bdir then fs else writeFS fs bdir .dir
  match backupLoop ext rootDir bdir (configs.eslint ++ configs.prettier) fs0 [] with
  | .ok (bu, fs') => .ok ({ backupDir := bdir, backedUp := bu }, fs')
  | .error fsE => .error fsE

/-! ## Generated configuration (`generateBiomeConfig`) -/

/-- Model of `generateBiomeConfig`: the fixed Biome configuration document,
transcribed from the object literal in the script. -/
def generateBiomeConfig : JVal :=
  .obj
    [("$schema", .str "https://biomejs.dev/schemas/1.9.4/schema.json"),
     ("vcs", .obj
       [("enabled", .bool true),
        ("clientKind", .str "git"),
        ("useIgnoreFile", .bool true)]),
     ("files", .obj
       [("ignoreUnknown", .bool false),
        ("ignore", .arr
          [.str "node_modules", .str "dist", .str "build", .str ".next",
           .str ".nuxt", .str "coverage", .str "*.min.js"])]),
     ("formatter", .obj
       [("enabled", .bool true),
        ("formatWithErrors", .bool false),
        ("indentStyle", .str "space"),
        ("indentWidth", .num 2),
        ("lineEnding", .str "lf"),
        ("lineWidth", .num 100),
        ("attributePosition", .str "auto")]),
     ("organizeImports", .obj [("enabled", .bool true)]),
     ("linter", .obj
       [("enabled", .bool true),
        ("rules", .obj
          [("recommended", .bool true),
           ("correctness", .obj
             [("noUnusedVariables", .str "error"),
              ("noUnusedImports", .str "error")]),
           ("style", .obj
             [("useConst", .str "error"),
              ("useTemplate", .str "error")]),
           ("suspicious", .obj
             [("noExplicitAny", .str "warn"),
              ("noConsoleLog", .str "warn")])])]),
     ("javascript", .obj
       [("formatter", .obj
         [("quoteStyle", .str "single"),
          ("jsxQuoteStyle", .str "double"),
          ("quoteProperties", .str "asNeeded"),
          ("trailingCommas", .str "all"),
          ("semicolons", .str "always"),
          ("arrowParentheses", .str "always"),
          ("bracketSpacing", .bool true),
          ("bracketSameLine", .bool false)])]),
     ("json", .obj
       [("formatter", .obj
         [("enabled", .bool true),
          ("indentStyle", .str "space"),
          ("indentWidth", .num 2),
          ("lineWidth", .num 100)]),
        ("linter", .obj [("enabled", .bool true)])])]

/-! ## Manifest update (`updatePackageJson`) -/

/-- The five fixed script entries (`scriptUpdates` in the script), in
`Object.entries` order. -/
def scriptUpdates : List (String × String) :=
  [("lint", "biome lint ."),
   ("format", "biome format --write ."),
   ("format:check", "biome format ."),
   ("check", "biome check ."),
   ("check:fix", "biome check --write .")]

/-- Model of JavaScript property assignment `obj[key] = value` on an object
represented as an association list: update the first occurrence in place,
else append. -/
def setKey : List (String × String) → String → String → List (String × String)
  | [], k, v => [(k, v)]
  | (k', v') :: rest, k, v =>
      if k' = k then (k, v) :: rest else (k', v') :: setKey rest k v

/-- Apply all five `scriptUpdates` assignments in order. -/
def applyScriptUpdates (l : List (String × String)) : List (String × String) :=
  scriptUpdates.foldl (fun acc kv => setKey acc kv.1 kv.2) l

/-- The `{ removedFields, oldScripts }` record returned by
`updatePackageJson`. -/
structure UpdateResult where
  removedFields : List String
  oldScripts : List (String × String)
deriving DecidableEq

/-- The manifest after `updatePackageJson`'s in-place mutations: the two
embedded config fields deleted, `scripts` defaulted to `{}` and the five
fixed entries assigned. -/
def updatedManifest (m : Manifest) : Manifest :=
  { m with eslintConfig := false, prettier := false,
           scripts := some (applyScriptUpdates (m.scripts.getD [])) }

/-- The `removedFields` list recorded by `updatePackageJson` (the
`eslintConfig` check runs first). -/
def removedFieldsOf (m : Manifest) : List String :=
  (if m.eslintConfig then ["eslintConfig"] else []) ++
  (if m.prettier then ["prettier"] else [])

/-- Model of `updatePackageJson`: re-read and parse `package.json` (a missing
or unparsable file throws — the `.error` case), delete the two embedded
config fields recording which were present, default `scripts` to `{}`,
overwrite the five script entries, and write the manifest back. -/
def updatePackageJson (rootDir : String) (fs : FS) :
    Except FS (UpdateResult × FS) :=
  match lookupFS fs (pathJoin rootDir "package.json") with
  | some (.json m) =>
      .ok ({ removedFields := removedFieldsOf m,
             oldScripts := m.scripts.getD [] },
           writeFS fs (pathJoin rootDir "package.json")
             (.json (updatedManifest m)))
  | _ => .error fs

/-! ## Package manager probe and external commands -/

/-- The four supported package managers. -/
inductive PM where
  | npm | yarn | pnpm | bun
deriving DecidableEq

/-- Model of `detectPackageManager`: probe lockfiles in fixed priority
order, defaulting to npm. -/
def detectPackageManager (rootDir : String) (fs : FS) : PM :=
  if existsSync fs (pathJoin rootDir "pnpm-lock.yaml") then .pnpm
  else if existsSync fs (pathJoin rootDir "yarn.lock") then .yarn
  else if existsSync fs (pathJoin rootDir "bun.lockb") then .bun
  else .npm

/-- The install command strings of `installBiome`. -/
def installCommand (pm : PM) : String :=
  match pm with
  | .npm => "npm install --save-dev --save-exact @biomejs/biome"
  | .yarn => "yarn add --dev --exact @biomejs/biome"
  | .pnpm => "pnpm add --save-dev --save-exact @biomejs/biome"
  | .bun => "bun add --dev --exact @biomejs/biome"

/-- The uninstall command strings of `removeOldPackages`, for a given
filtered package list. -/
def uninstallCommand (pm : PM) (toRemove : List String) : String :=
  match pm with
  | .npm => "npm uninstall " ++ String.intercalate " " toRemove
  | .yarn => "yarn remove " ++ String.intercalate " " toRemove
  | .pnpm => "pnpm remove " ++ String.intercalate " " toRemove
  | .bun => "bun remove " ++ String.intercalate " " toRemove

/-- JavaScript truthiness of a dependency-map entry: present with a
non-empty version string (`pkg.devDependencies[name]` is tested truthily). -/
def depDeclared (deps : Option (List (String × String))) (name : String) : Bool :=
  match deps with
  | none => false
  | some l =>
      match l.lookup name with
      | none => false
      | some v => v != ""

/-- Model of `removeOldPackages`: re-read the manifest (parse failure
throws), filter `PACKAGES_TO_REMOVE` to those declared, and when the result
is non-empty invoke the uninstall command (whose failure throws).  Returns
the removed names, the invoked command (if any), and the filesystem after
the external tool's effect. -/
def removeOldPackages (ext : Ext) (pm : PM) (rootDir : String) (fs : FS) :
    Except FS (List String × Option String × FS) :=
  match lookupFS fs (pathJoin rootDir "package.json") with
  | some (.json m) =>
      let toRemove := PACKAGES_TO_REMOVE.filter (fun name =>
        depDeclared m.devDependencies name || depDeclared m.dependencies name)
      if toRemove.isEmpty then .ok ([], none, fs)
      else if ext.uninstallOk then
        .ok (toRemove, some (uninstallCommand pm toRemove),
             applyManifestEffect rootDir fs (ext.uninstallEffect toRemove))
      else .error fs
  | _ => .error fs

/-! ## File removal (`removeConfigFiles`) -/

/-- The `forEach` body of `removeConfigFiles`: skip entries mentioning
`package.json`, delete existing files, record deletions. -/
def removeLoop (rootDir : String) :
    List String → FS → List String → List String × FS
  | [], fs, acc => (acc, fs)
  | f :: rest, fs, acc =>
    if strIncludes f "package.json" then removeLoop rootDir rest fs acc
    else if existsSync fs (pathJoin rootDir f) then
      removeLoop rootDir rest (removeFS fs (pathJoin rootDir f)) (acc ++ [f])
    else removeLoop rootDir rest fs acc

/-- Model of `removeConfigFiles`: iterate the concatenated detected lists
(not the backup record), deleting each file that still exists. -/
def removeConfigFiles (rootDir : String) (configs : Found) (fs : FS) :
    List String × FS :=
  removeLoop rootDir (configs.eslint ++ configs.prettier) fs []

/-! ## The orchestrator (`main`) -/

/-- Which pipeline stage threw, for runs that abort. -/
inductive Stage where
  | detect | backup | install | update
deriving DecidableEq

/-- The observable outcome of a run of `main`: process exit code, final
filesystem, and the accumulated migration report data. -/
structure Outcome where
  exitCode : Nat
  fs : FS
  found : Found
  backedUp : List String
  removedFields : List String
  removedPackages : List String
  installCmd : Option String
  uninstallCmd : Option String
  removedFiles : List String
  failedAt : Option Stage

/-- Step 2 of `main`: backup runs only when a config (file or sentinel) was
detected. -/
def backupStage (ext : Ext) (rootDir : String) (configs : Found) (fs : FS) :
    Except FS (List String × FS) :=
  if configs.eslint.length > 0 || configs.prettier.length > 0 then
    match backupConfigs ext rootDir configs fs with
    | .ok (rec, fs') => .ok (rec.backedUp, fs')
    | .error e => .error e
  else .ok ([], fs)

/-- Step 4 of `main` (`installBiome` inside try/catch): a failing `execSync`
throws; on success the external tool's manifest effect is applied. -/
def installStage (ext : Ext) (rootDir : String) (fs : FS) : Except FS FS :=
  if ext.installOk then .ok (applyManifestEffect rootDir fs ext.installEffect)
  else .error fs

/-- Step 7 of `main`: `removeOldPackages` inside try/catch — a failure is
logged and the run continues with the filesystem as it was. -/
def removePackagesStage (ext : Ext) (pm : PM) (rootDir : String) (fs : FS) :
    List String × Option String × FS :=
  match removeOldPackages ext pm rootDir fs with
  | .ok x => x
  | .error e => ([], none, e)

/-- Step 8 of `main`: file removal runs only when a config was detected. -/
def removeFilesStage (rootDir : String) (configs : Found) (fs : FS) :
    List String × FS :=
  if configs.eslint.length > 0 || configs.prettier.length > 0 then
    removeConfigFiles rootDir configs fs
  else ([], fs)

/-- Model of `main` (with `rootDir` the result of `findRootDir`): the
straight-line pipeline.  Steps 1, 2 and 6 are not individually guarded, so
an exception there propagates to the top-level `main().catch`, which exits
with status 1; step 4's catch calls `process.exit(1)` directly; step 7's
catch swallows the failure. -/
def main (ext : Ext) (rootDir : String) (fs0 : FS) : Outcome :=
  match findExistingConfigs rootDir fs0 with
  | .error e =>
      ⟨1, e, ⟨[], []⟩, [], [], [], none, none, [], some .detect⟩
  | .ok configs =>
    match backupStage ext rootDir configs fs0 with
    | .error e => ⟨1, e, configs, [], [], [], none, none, [], some .backup⟩
    | .ok (bu, fs1) =>
      let pm := detectPackageManager rootDir fs1
      match installStage ext rootDir fs1 with
      | .error e =>
          ⟨1, e, configs, bu, [], [], some (installCommand pm), none, [],
           some .install⟩
      | .ok fs2 =>
        let fs3 := writeFS fs2 (pathJoin rootDir "biome.json")
                     (.conf generateBiomeConfig)
        match updatePackageJson rootDir fs3 with
        | .error e =>
            ⟨1, e, configs, bu, [], [], some (installCommand pm), none, [],
             some .update⟩
        | .ok (upd, fs4) =>
          let step7 := removePackagesStage ext pm rootDir fs4
          let step8 := removeFilesStage rootDir configs step7.2.2
          ⟨0, step8.2, configs, bu, upd.removedFields, step7.1,
           some (installCommand pm), step7.2.1, step8.1, none⟩

/-! ## Shared lemmas about the embedding -/

/-- A plain file name: no path separator. -/
def plainFile (f : String) : Bool := !(f.data.contains '/')

/-- All candidate config file names are plain, are distinct from the
special names used by the pipeline, and do not mention `package.json`. -/
theorem configNames_good :
    ∀ f ∈ CONFIG_FILES_eslint ++ CONFIG_FILES_prettier,
      plainFile f = true ∧ f ≠ backupDirName ∧ f ≠ "package.json" ∧
      f ≠ "biome.json" ∧ strIncludes f "package.json" = false := by
  decide

theorem strIncludes_pkg_self : strIncludes "package.json" "package.json" = true := by
  decide

theorem ne_pkg_of_not_includes {f : String}
    (h : strIncludes f "package.json" = false) : f ≠ "package.json" := by
  intro he; subst he; rw [strIncludes_pkg_self] at h; exact absurd h (by simp)

/-- Is the path inside (or equal to) the backup directory of this root? -/
def underBackup (rootDir q : String) : Bool :=
  q == pathJoin rootDir backupDirName ||
  isPrefList (pathJoin rootDir backupDirName ++ "/").data q.data

theorem isPrefList_append (l t : List Char) : isPrefList l (l ++ t) = true := by
  induction l with
  | nil => simp [isPrefList]
  | cons a as ih => simp [isPrefList, ih]

theorem underBackup_bdir (rootDir : String) :
    underBackup rootDir (pathJoin rootDir backupDirName) = true := by
  simp [underBackup]

theorem underBackup_join (rootDir g : String) :
    underBackup rootDir (pathJoin (pathJoin rootDir backupDirName) g) = true := by
  have hd : (pathJoin (pathJoin rootDir backupDirName) g).data
      = (pathJoin rootDir backupDirName ++ "/").data ++ g.data := by
    show ((pathJoin rootDir backupDirName ++ "/") ++ g).data = _
    rw [string_data_append]
  rw [underBackup, hd, isPrefList_append]
  simp

/-- A plain file name distinct from the backup directory name joins to a
path outside the backup directory. -/
theorem underBackup_plain_false (rootDir : String) {f : String}
    (hp : plainFile f = true) (hb : f ≠ backupDirName) :
    underBackup rootDir (pathJoin rootDir f) = false := by
  have h1 : pathJoin rootDir f ≠ pathJoin rootDir backupDirName :=
    pathJoin_ne_of_ne rootDir hb
  rw [underBackup]
  simp only [Bool.or_eq_false_iff, beq_eq_false_iff_ne, ne_eq]
  refine ⟨h1, ?_⟩
  by_contra hpref
  rw [Bool.not_eq_false] at hpref
  -- a prefix relation here would force a '/' inside `f`
  have hdq : (pathJoin rootDir f).data
      = rootDir.data ++ '/' :: f.data := pathJoin_data _ _
  have hdb : (pathJoin rootDir backupDirName ++ "/").data
      = rootDir.data ++ '/' :: (backupDirName.data ++ ['/']) := by
    rw [string_data_append, pathJoin_data]
    simp
  have hpre : ∃ t, (pathJoin rootDir f).data
      = (pathJoin rootDir backupDirName ++ "/").data ++ t := by
    clear hdq hdb h1
    revert hpref
    generalize (pathJoin rootDir backupDirName ++ "/").data = xs
    generalize (pathJoin rootDir f).data = ys
    induction xs generalizing ys with
    | nil => intro _; exact ⟨ys, rfl⟩
    | cons a as ih =>
      intro hx
      cases ys with
      | nil => simp [isPrefList] at hx
      | cons b bs =>
        simp only [isPrefList, Bool.and_eq_true, beq_iff_eq] at hx
        obtain ⟨t, ht⟩ := ih bs hx.2
        exact ⟨t, by simp [hx.1, ht]⟩
  obtain ⟨t, ht⟩ := hpre
  rw [hdq, hdb, List.append_assoc] at ht
  have h2 := list_append_cancel _ _ _ ht
  have h3 : f.data = backupDirName.data ++ '/' :: t := by
    have := (List.cons.inj h2).2
    simpa using this
  have : f.data.contains '/' = true := by
    rw [h3]
    simp only [List.contains_iff_exists_mem_beq]
    exact ⟨'/', by simp, by simp⟩
  rw [plainFile, this] at hp
  simp at hp

/-- Filesystem of an `Except`-valued backup result (both the committed and
the thrown state). -/
def exceptFS : Except FS (List String × FS) → FS
  | .ok (_, f) => f
  | .error f => f

/-! ### Frame and membership lemmas for `backupLoop` -/

theorem backupLoop_frame (ext : Ext) (rootDir : String) :
    ∀ (files : List String) (fs : FS) (acc : List String) (q : String),
      underBackup rootDir q = false →
      lookupFS (exceptFS (backupLoop ext rootDir
        (pathJoin rootDir backupDirName) files fs acc)) q = lookupFS fs q := by
  intro files
  induction files with
  | nil => intro fs acc q _; simp [backupLoop, exceptFS]
  | cons f rest ih =>
    intro fs acc q hq
    rw [backupLoop]
    by_cases hinc : strIncludes f "package.json" = true
    · simp only [hinc, if_true]
      exact ih fs acc q hq
    · simp only [Bool.not_eq_true] at hinc
      simp only [hinc, Bool.false_eq_true, if_false]
      cases hl : lookupFS fs (pathJoin rootDir f) with
      | none => exact ih fs acc q hq
      | some d =>
        by_cases hcf : ext.copyFail f = true
        · simp [hcf, exceptFS]
        · simp only [Bool.not_eq_true] at hcf
          simp only [hcf, Bool.false_eq_true, if_false]
          rw [ih _ _ q hq, lookupFS_writeFS]
          have : pathJoin (pathJoin rootDir backupDirName) f ≠ q := by
            intro he
            rw [← he, underBackup_join] at hq
            exact absurd hq (by simp)
          simp [this]

theorem backupLoop_acc_sub (ext : Ext) (rootDir bdir : String) :
    ∀ (files : List String) (fs : FS) (acc bu : List String) (fs' : FS),
      backupLoop ext rootDir bdir files fs acc = .ok (bu, fs') →
      ∀ x ∈ acc, x ∈ bu := by
  intro files
  induction files with
  | nil =>
    intro fs acc bu fs' h x hx
    simp only [backupLoop, Except.ok.injEq, Prod.mk.injEq] at h
    rw [← h.1]; exact hx
  | cons f rest ih =>
    intro fs acc bu fs' h x hx
    rw [backupLoop] at h
    by_cases hinc : strIncludes f "package.json" = true
    · simp only [hinc, if_true] at h
      exact ih fs acc bu fs' h x hx
    · simp only [Bool.not_eq_true] at hinc
      simp only [hinc, Bool.false_eq_true, if_false] at h
      cases hl : lookupFS fs (pathJoin rootDir f) with
      | none => rw [hl] at h; exact ih fs acc bu fs' h x hx
      | some d =>
        rw [hl] at h
        by_cases hcf : ext.copyFail f = true
        · simp [hcf] at h
        · simp only [Bool.not_eq_true] at hcf
          simp only [hcf, Bool.false_eq_true, if_false] at h
          exact ih _ _ bu fs' h x (by simp [hx])

theorem backupLoop_mem (ext : Ext) (rootDir : String) :
    ∀ (files : List String) (fs : FS) (acc bu : List String) (fs' : FS)
      (f : String),
      backupLoop ext rootDir (pathJoin rootDir backupDirName) files fs acc
        = .ok (bu, fs') →
      f ∈ files → strIncludes f "package.json" = false → plainFile f = true →
      existsSync fs (pathJoin rootDir f) = true → f ∈ bu := by
  intro files
  induction files with
  | nil => intro fs acc bu fs' f _ hf; simp at hf
  | cons g rest ih =>
    intro fs acc bu fs' f h hf hinc hp hex
    rw [backupLoop] at h
    rcases List.mem_cons.mp hf with hfg | hfr
    · subst hfg
      simp only [hinc, Bool.false_eq_true, if_false] at h
      cases hl : lookupFS fs (pathJoin rootDir f) with
      | none => rw [existsSync, hl] at hex; simp at hex
      | some d =>
        rw [hl] at h
        by_cases hcf : ext.copyFail f = true
        · simp [hcf] at h
        · simp only [Bool.not_eq_true] at hcf
          simp only [hcf, Bool.false_eq_true, if_false] at h
          exact backupLoop_acc_sub ext rootDir _ rest _ _ bu fs' h f
            (by simp)
    · by_cases hincg : strIncludes g "package.json" = true
      · simp only [hincg, if_true] at h
        exact ih fs acc bu fs' f h hfr hinc hp hex
      · simp only [Bool.not_eq_true] at hincg
        simp only [hincg, Bool.false_eq_true, if_false] at h
        cases hl : lookupFS fs (pathJoin rootDir g) with
        | none => rw [hl] at h; exact ih fs acc bu fs' f h hfr hinc hp hex
        | some d =>
          rw [hl] at h
          by_cases hcf : ext.copyFail g = true
          · simp [hcf] at h
          · simp only [Bool.not_eq_true] at hcf
            simp only [hcf, Bool.false_eq_true, if_false] at h
            refine ih _ _ bu fs' f h hfr hinc hp ?_
            rw [existsSync_writeFS_ne]
            · exact hex
            · exact fun he =>
                pathJoin_ne_nested rootDir backupDirName g
                  (by simpa [plainFile] using hp) he.symm

theorem backupLoop_ok (ext : Ext) (rootDir bdir : String) :
    ∀ (files : List String) (fs : FS) (acc : List String),
      (∀ f ∈ files, ext.copyFail f = false) →
      ∃ bu fs', backupLoop ext rootDir bdir files fs acc = .ok (bu, fs') := by
  intro files
  induction files with
  | nil => intro fs acc _; exact ⟨acc, fs, rfl⟩
  | cons f rest ih =>
    intro fs acc hcf
    rw [backupLoop]
    by_cases hinc : strIncludes f "package.json" = true
    · simp only [hinc, if_true]
      exact ih fs acc (fun g hg => hcf g (by simp [hg]))
    · simp only [Bool.not_eq_true] at hinc
      simp only [hinc, Bool.false_eq_true, if_false]
      cases hl : lookupFS fs (pathJoin rootDir f) with
      | none => exact ih fs acc (fun g hg => hcf g (by simp [hg]))
      | some d =>
        have : ext.copyFail f = false := hcf f (by simp)
        simp only [this, Bool.false_eq_true, if_false]
        exact ih _ _ (fun g hg => hcf g (by simp [hg]))

theorem backupLoop_not_mem (ext : Ext) (rootDir : String) :
    ∀ (files : List String) (fs : FS) (acc bu : List String) (fs' : FS)
      (f : String),
      backupLoop ext rootDir (pathJoin rootDir backupDirName) files fs acc
        = .ok (bu, fs') →
      plainFile f = true →
      existsSync fs (pathJoin rootDir f) = false → f ∉ acc → f ∉ bu := by
  intro files
  induction files with
  | nil =>
    intro fs acc bu fs' f h _ _ hacc
    simp only [backupLoop, Except.ok.injEq, Prod.mk.injEq] at h
    rw [← h.1]; exact hacc
  | cons g rest ih =>
    intro fs acc bu fs' f h hp hex hacc
    rw [backupLoop] at h
    by_cases hincg : strIncludes g "package.json" = true
    · simp only [hincg, if_true] at h
      exact ih fs acc bu fs' f h hp hex hacc
    · simp only [Bool.not_eq_true] at hincg
      simp only [hincg, Bool.false_eq_true, if_false] at h
      cases hl : lookupFS fs (pathJoin rootDir g) with
      | none => rw [hl] at h; exact ih fs acc bu fs' f h hp hex hacc
      | some d =>
        rw [hl] at h
        by_cases hcf : ext.copyFail g = true
        · simp [hcf] at h
        · simp only [Bool.not_eq_true] at hcf
          simp only [hcf, Bool.false_eq_true, if_false] at h
          have hfg : f ≠ g := by
            intro he; subst he
            rw [existsSync, hl] at hex; simp at hex
          refine ih _ _ bu fs' f h hp ?_ ?_
          · rw [existsSync_writeFS_ne]
            · exact hex
            · exact fun he =>
                pathJoin_ne_nested rootDir backupDirName g
                  (by simpa [plainFile] using hp) he.symm
          · simp [hacc, hfg]

/-! ### Lemmas for `removeLoop` -/

theorem removeLoop_mem (rootDir : String) :
    ∀ (files : List String) (fs : FS) (acc : List String) (f : String),
      f ∈ (removeLoop rootDir files fs acc).1 →
      f ∈ acc ∨ (f ∈ files ∧ strIncludes f "package.json" = false ∧
                 existsSync fs (pathJoin rootDir f) = true) := by
  intro files
  induction files with
  | nil => intro fs acc f h; exact Or.inl h
  | cons g rest ih =>
    intro fs acc f h
    rw [removeLoop] at h
    by_cases hincg : strIncludes g "package.json" = true
    · simp only [hincg, if_true] at h
      rcases ih fs acc f h with h1 | ⟨h1, h2, h3⟩
      · exact Or.inl h1
      · exact Or.inr ⟨by simp [h1], h2, h3⟩
    · simp only [Bool.not_eq_true] at hincg
      simp only [hincg, Bool.false_eq_true, if_false] at h
      by_cases hex : existsSync fs (pathJoin rootDir g) = true
      · simp only [hex, if_true] at h
        rcases ih _ _ f h with h1 | ⟨h1, h2, h3⟩
        · rcases List.mem_append.mp h1 with h1 | h1
          · exact Or.inl h1
          · simp only [List.mem_singleton] at h1
            subst h1
            exact Or.inr ⟨by simp, hincg, hex⟩
        · exact Or.inr ⟨by simp [h1], h2,
            existsSync_removeFS _ _ _ h3⟩
      · simp only [Bool.not_eq_true] at hex
        simp only [hex, Bool.false_eq_true, if_false] at h
        rcases ih fs acc f h with h1 | ⟨h1, h2, h3⟩
        · exact Or.inl h1
        · exact Or.inr ⟨by simp [h1], h2, h3⟩

theorem removeLoop_frame (rootDir : String) :
    ∀ (files : List String) (fs : FS) (acc : List String) (q : String),
      (∀ f ∈ files, strIncludes f "package.json" = false →
        pathJoin rootDir f ≠ q) →
      lookupFS (removeLoop rootDir files fs acc).2 q = lookupFS fs q := by
  intro files
  induction files with
  | nil => intro fs acc q _; rfl
  | cons g rest ih =>
    intro fs acc q hq
    rw [removeLoop]
    by_cases hincg : strIncludes g "package.json" = true
    · simp only [hincg, if_true]
      exact ih fs acc q (fun f hf => hq f (by simp [hf]))
    · simp only [Bool.not_eq_true] at hincg
      simp only [hincg, Bool.false_eq_true, if_false]
      by_cases hex : existsSync fs (pathJoin rootDir g) = true
      · simp only [hex, if_true]
        rw [ih _ _ q (fun f hf => hq f (by simp [hf]))]
        rw [lookupFS_removeFS]
        have : pathJoin rootDir g ≠ q := hq g (by simp) hincg
        simp [this]
      · simp only [Bool.not_eq_true] at hex
        simp only [hex, Bool.false_eq_true, if_false]
        exact ih fs acc q (fun f hf => hq f (by simp [hf]))

theorem removeLoop_none_mono (rootDir : String) :
    ∀ (files : List String) (fs : FS) (acc : List String) (q : String),
      lookupFS fs q = none →
      lookupFS (removeLoop rootDir files fs acc).2 q = none := by
  intro files
  induction files with
  | nil => intro fs acc q h; exact h
  | cons g rest ih =>
    intro fs acc q h
    rw [removeLoop]
    by_cases hincg : strIncludes g "package.json" = true
    · simp only [hincg, if_true]; exact ih fs acc q h
    · simp only [Bool.not_eq_true] at hincg
      simp only [hincg, Bool.false_eq_true, if_false]
      by_cases hex : existsSync fs (pathJoin rootDir g) = true
      · simp only [hex, if_true]
        exact ih _ _ q (lookupFS_removeFS_none fs _ q h)
      · simp only [Bool.not_eq_true] at hex
        simp only [hex, Bool.false_eq_true, if_false]
        exact ih fs acc q h

theorem removeLoop_removes (rootDir : String) :
    ∀ (files : List String) (fs : FS) (acc : List String) (f : String),
      f ∈ files → strIncludes f "package.json" = false →
      existsSync fs (pathJoin rootDir f) = true →
      lookupFS (removeLoop rootDir files fs acc).2 (pathJoin rootDir f)
        = none := by
  intro files
  induction files with
  | nil => intro fs acc f hf; simp at hf
  | cons g rest ih =>
    intro fs acc f hf hinc hex
    rw [removeLoop]
    by_cases hincg : strIncludes g "package.json" = true
    · simp only [hincg, if_true]
      have hfg : f ≠ g := by
        intro he; subst he; rw [hincg] at hinc; exact absurd hinc (by simp)
      have hfr : f ∈ rest := by
        rcases List.mem_cons.mp hf with h | h
        · exact absurd h hfg
        · exact h
      exact ih fs acc f hfr hinc hex
    · simp only [Bool.not_eq_true] at hincg
      simp only [hincg, Bool.false_eq_true, if_false]
      by_cases hpath : pathJoin rootDir g = pathJoin rootDir f
      · rw [hpath]
        simp only [hex, if_true]
        refine removeLoop_none_mono rootDir rest _ _ _ ?_
        rw [lookupFS_removeFS]
        simp
      · have hfg : f ≠ g := fun he => hpath (by rw [he])
        have hfr : f ∈ rest := by
          rcases List.mem_cons.mp hf with h | h
          · exact absurd h hfg
          · exact h
        by_cases hexg : existsSync fs (pathJoin rootDir g) = true
        · simp only [hexg, if_true]
          refine ih _ _ f hfr hinc ?_
          rw [existsSync, lookupFS_removeFS]
          simp only [hpath, if_false]
          exact hex
        · simp only [Bool.not_eq_true] at hexg
          simp only [hexg, Bool.false_eq_true, if_false]
          exact ih fs acc f hfr hinc hex

theorem removeLoop_not_mem (rootDir : String) :
    ∀ (files : List String) (fs : FS) (acc : List String) (f : String),
      existsSync fs (pathJoin rootDir f) = false → f ∉ acc →
      f ∉ (removeLoop rootDir files fs acc).1 := by
  intro files
  induction files with
  | nil => intro fs acc f _ hacc; exact hacc
  | cons g rest ih =>
    intro fs acc f hex hacc
    rw [removeLoop]
    by_cases hincg : strIncludes g "package.json" = true
    · simp only [hincg, if_true]; exact ih fs acc f hex hacc
    · simp only [Bool.not_eq_true] at hincg
      simp only [hincg, Bool.false_eq_true, if_false]
      by_cases hexg : existsSync fs (pathJoin rootDir g) = true
      · simp only [hexg, if_true]
        have hfg : f ≠ g := by
          intro he; subst he; rw [hexg] at hex; exact absurd hex (by simp)
        refine ih _ _ f ?_ ?_
        · rw [existsSync, lookupFS_removeFS]
          by_cases hp : pathJoin rootDir g = pathJoin rootDir f
          · simp [hp]
          · simp only [hp, if_false]
            exact hex
        · simp [hacc, hfg]
      · simp only [Bool.not_eq_true] at hexg
        simp only [hexg, Bool.false_eq_true, if_false]
        exact ih fs acc f hex hacc

/-! ### Lemmas for `applyManifestEffect` -/

theorem applyManifestEffect_frame (rootDir : String) (fs : FS)
    (eff : Option Manifest → Option Manifest) (q : String)
    (hq : q ≠ pathJoin rootDir "package.json") :
    lookupFS (applyManifestEffect rootDir fs eff) q = lookupFS fs q := by
  have hne : pathJoin rootDir "package.json" ≠ q := fun h => hq h.symm
  unfold applyManifestEffect
  cases hl : lookupFS fs (pathJoin rootDir "package.json") with
  | none =>
    cases he : eff none with
    | none => rfl
    | some m' =>
      show lookupFS (writeFS fs (pathJoin rootDir "package.json")
        (.json m')) q = lookupFS fs q
      rw [lookupFS_writeFS]
      simp [hne]
  | some d =>
    cases d with
    | json m =>
      show lookupFS (match eff (some m) with
        | some m' => writeFS fs (pathJoin rootDir "package.json") (.json m')
        | none => removeFS fs (pathJoin rootDir "package.json")) q
        = lookupFS fs q
      cases he : eff (some m) with
      | none =>
        show lookupFS (removeFS fs (pathJoin rootDir "package.json")) q
          = lookupFS fs q
        rw [lookupFS_removeFS]
        simp [hne]
      | some m' =>
        show lookupFS (writeFS fs (pathJoin rootDir "package.json")
          (.json m')) q = lookupFS fs q
        rw [lookupFS_writeFS]
        simp [hne]
    | conf v => rfl
    | blob n => rfl
    | bad => rfl
    | dir => rfl

/-- Contract of a "tame" external manifest effect: the package manager only
edits the dependency fields of an existing manifest (it never deletes the
file, and never touches scripts, the embedded config fields, or other
top-level fields). -/
def DepsOnly (eff : Option Manifest → Option Manifest) : Prop :=
  ∀ m : Manifest, ∃ m' : Manifest, eff (some m) = some m' ∧
    m'.scripts = m.scripts ∧ m'.eslintConfig = m.eslintConfig ∧
    m'.prettier = m.prettier ∧ m'.others = m.others

theorem applyManifestEffect_pkg (rootDir : String) (fs : FS)
    (eff : Option Manifest → Option Manifest) (m : Manifest)
    (hl : lookupFS fs (pathJoin rootDir "package.json") = some (.json m))
    (hd : DepsOnly eff) :
    ∃ m' : Manifest,
      lookupFS (applyManifestEffect rootDir fs eff)
        (pathJoin rootDir "package.json") = some (.json m') ∧
      m'.scripts = m.scripts ∧ m'.eslintConfig = m.eslintConfig ∧
      m'.prettier = m.prettier ∧ m'.others = m.others := by
  obtain ⟨m', he, h1, h2, h3, h4⟩ := hd m
  refine ⟨m', ?_, h1, h2, h3, h4⟩
  unfold applyManifestEffect
  rw [hl]
  show lookupFS (match eff (some m) with
    | some m' => writeFS fs (pathJoin rootDir "package.json") (.json m')
    | none => removeFS fs (pathJoin rootDir "package.json"))
    (pathJoin rootDir "package.json") = some (.json m')
  rw [he]
  show lookupFS (writeFS fs (pathJoin rootDir "package.json") (.json m'))
    (pathJoin rootDir "package.json") = some (.json m')
  rw [lookupFS_writeFS]
  simp

/-! ### Lemmas for `setKey` and `applyScriptUpdates` -/

theorem lookup_setKey (k v : String) :
    ∀ (l : List (String × String)) (k' : String),
      (setKey l k v).lookup k' = if k' = k then some v else l.lookup k' := by
  intro l
  induction l with
  | nil =>
    intro k'
    by_cases h : k' = k
    · simp [setKey, List.lookup, h]
    · have hb : (k' == k) = false := beq_eq_false_iff_ne.mpr h
      simp [setKey, List.lookup, h, hb]
  | cons e rest ih =>
    intro k'
    obtain ⟨a, b⟩ := e
    by_cases hak : a = k
    · subst hak
      by_cases h : k' = a
      · simp [setKey, List.lookup, h]
      · have hb : (k' == a) = false := beq_eq_false_iff_ne.mpr h
        simp [setKey, List.lookup, h, hb]
    · by_cases h : k' = a
      · subst h
        have hkk : ¬ k' = k := fun he => hak (he ▸ rfl)
        simp [setKey, List.lookup, hak, hkk]
      · have hb : (k' == a) = false := beq_eq_false_iff_ne.mpr h
        have hb2 : (k == a) = false :=
          beq_eq_false_iff_ne.mpr (fun he => hak he.symm)
        by_cases h2 : k' = k
        · simp [setKey, List.lookup, hak, hb, hb2, ih, h2]
        · simp [setKey, List.lookup, hak, hb, hb2, ih, h2]

theorem applyScriptUpdates_lookup :
    ∀ (l : List (String × String)) (kv : String × String),
      kv ∈ scriptUpdates →
      (applyScriptUpdates l).lookup kv.1 = some kv.2 := by
  intro l kv hkv
  have : applyScriptUpdates l =
      setKey (setKey (setKey (setKey (setKey l "lint" "biome lint .")
        "format" "biome format --write .") "format:check" "biome format .")
        "check" "biome check .") "check:fix" "biome check --write ." := rfl
  rw [this]
  fin_cases hkv <;> simp [lookup_setKey]

/-! ### Lemmas for `findExistingConfigs` -/

theorem findExistingConfigs_mem (rootDir : String) (fs : FS) (cfgs : Found)
    (h : findExistingConfigs rootDir fs = .ok cfgs) :
    ∀ f ∈ cfgs.eslint ++ cfgs.prettier,
      (f ∈ CONFIG_FILES_eslint ++ CONFIG_FILES_prettier ∧
       existsSync fs (pathJoin rootDir f) = true) ∨
      strIncludes f "package.json" = true := by
  intro f hf
  rw [findExistingConfigs] at h
  have hsen : strIncludes eslintSentinel "package.json" = true := by decide
  have hsen2 : strIncludes prettierSentinel "package.json" = true := by decide
  cases hl : lookupFS fs (pathJoin rootDir "package.json") with
  | none =>
    rw [hl] at h
    simp only [Except.ok.injEq] at h
    rw [← h] at hf
    simp only [List.mem_append, List.mem_filter] at hf
    rcases hf with ⟨h1, h2⟩ | ⟨h1, h2⟩
    · exact Or.inl ⟨List.mem_append.mpr (Or.inl h1), by simpa using h2⟩
    · exact Or.inl ⟨List.mem_append.mpr (Or.inr h1), by simpa using h2⟩
  | some d =>
    cases d with
    | json m =>
      rw [hl] at h
      simp only [Except.ok.injEq] at h
      rw [← h] at hf
      simp only [List.mem_append] at hf
      rcases hf with hf | hf
      · rcases hf with hf | hf
        · rcases List.mem_filter.mp hf with ⟨h1, h2⟩
          exact Or.inl ⟨List.mem_append.mpr (Or.inl h1), by simpa using h2⟩
        · rcases hme : m.eslintConfig with _ | _
          · rw [hme] at hf; simp at hf
          · rw [hme] at hf
            simp only [if_true, List.mem_singleton] at hf
            subst hf
            exact Or.inr hsen
      · rcases hf with hf | hf
        · rcases List.mem_filter.mp hf with ⟨h1, h2⟩
          exact Or.inl ⟨List.mem_append.mpr (Or.inr h1), by simpa using h2⟩
        · rcases hmp : m.prettier with _ | _
          · rw [hmp] at hf; simp at hf
          · rw [hmp] at hf
            simp only [if_true, List.mem_singleton] at hf
            subst hf
            exact Or.inr hsen2
    | conf v => rw [hl] at h; exact absurd h (by simp)
    | blob n => rw [hl] at h; exact absurd h (by simp)
    | bad => rw [hl] at h; exact absurd h (by simp)
    | dir => rw [hl] at h; exact absurd h (by simp)

theorem findExistingConfigs_mem_of_exists (rootDir : String) (fs : FS)
    (cfgs : Found) (h : findExistingConfigs rootDir fs = .ok cfgs)
    (f : String) (hf : f ∈ CONFIG_FILES_eslint ++ CONFIG_FILES_prettier)
    (hex : existsSync fs (pathJoin rootDir f) = true) :
    f ∈ cfgs.eslint ++ cfgs.prettier := by
  rw [findExistingConfigs] at h
  cases hl : lookupFS fs (pathJoin rootDir "package.json") with
  | none =>
    rw [hl] at h
    simp only [Except.ok.injEq] at h
    rw [← h]
    simp only [List.mem_append, List.mem_filter]
    rcases List.mem_append.mp hf with hf | hf
    · exact Or.inl ⟨hf, by simpa using hex⟩
    · exact Or.inr ⟨hf, by simpa using hex⟩
  | some d =>
    cases d with
    | json m =>
      rw [hl] at h
      simp only [Except.ok.injEq] at h
      rw [← h]
      simp only [List.mem_append, List.mem_filter]
      rcases List.mem_append.mp hf with hf | hf
      · exact Or.inl (Or.inl ⟨hf, by simpa using hex⟩)
      · exact Or.inr (Or.inl ⟨hf, by simpa using hex⟩)
    | conf v => rw [hl] at h; exact absurd h (by simp)
    | blob n => rw [hl] at h; exact absurd h (by simp)
    | bad => rw [hl] at h; exact absurd h (by simp)
    | dir => rw [hl] at h; exact absurd h (by simp)

/-! ### Stage-level frame lemmas -/

/-- Filesystem of an `Except`-valued `backupConfigs` result. -/
def exceptBFS : Except FS (BackupRecord × FS) → FS
  | .ok (_, f) => f
  | .error f => f

theorem underBackup_bdir_false {rootDir q : String}
    (hq : underBackup rootDir q = false) :
    pathJoin rootDir backupDirName ≠ q := by
  intro he
  rw [← he, underBackup_bdir] at hq
  exact absurd hq (by simp)

theorem backupConfigs_frame (ext : Ext) (rootDir : String) (cfgs : Found)
    (fs : FS) (q : String) (hq : underBackup rootDir q = false) :
    lookupFS (exceptBFS (backupConfigs ext rootDir cfgs fs)) q
      = lookupFS fs q := by
  rw [backupConfigs]
  have hmk : lookupFS (if existsSync fs (pathJoin rootDir backupDirName)
      then fs else writeFS fs (pathJoin rootDir backupDirName) .dir) q
      = lookupFS fs q := by
    by_cases hex : existsSync fs (pathJoin rootDir backupDirName) = true
    · simp [hex]
    · simp only [Bool.not_eq_true] at hex
      simp only [hex, Bool.false_eq_true, if_false]
      rw [lookupFS_writeFS]
      simp [underBackup_bdir_false hq]
  cases hb : backupLoop ext rootDir (pathJoin rootDir backupDirName)
      (cfgs.eslint ++ cfgs.prettier)
      (if existsSync fs (pathJoin rootDir backupDirName) then fs
       else writeFS fs (pathJoin rootDir backupDirName) .dir) [] with
  | ok res =>
    obtain ⟨bu, fs'⟩ := res
    have := backupLoop_frame ext rootDir (cfgs.eslint ++ cfgs.prettier)
      (if existsSync fs (pathJoin rootDir backupDirName) then fs
       else writeFS fs (pathJoin rootDir backupDirName) .dir) [] q hq
    rw [hb] at this
    simp only [exceptFS] at this
    simp only [exceptBFS]
    rw [this, hmk]
  | error fsE =>
    have := backupLoop_frame ext rootDir (cfgs.eslint ++ cfgs.prettier)
      (if existsSync fs (pathJoin rootDir backupDirName) then fs
       else writeFS fs (pathJoin rootDir backupDirName) .dir) [] q hq
    rw [hb] at this
    simp only [exceptFS] at this
    simp only [exceptBFS]
    rw [this, hmk]

theorem backupStage_frame (ext : Ext) (rootDir : String) (cfgs : Found)
    (fs : FS) (q : String) (hq : underBackup rootDir q = false) :
    lookupFS (exceptFS (backupStage ext rootDir cfgs fs)) q
      = lookupFS fs q := by
  rw [backupStage]
  by_cases hc : (cfgs.eslint.length > 0 || cfgs.prettier.length > 0) = true
  · simp only [hc, if_true]
    have := backupConfigs_frame ext rootDir cfgs fs q hq
    cases hb : backupConfigs ext rootDir cfgs fs with
    | ok res =>
      obtain ⟨rec, fs'⟩ := res
      rw [hb] at this
      simpa [exceptBFS, exceptFS] using this
    | error e =>
      rw [hb] at this
      simpa [exceptBFS, exceptFS] using this
  · simp only [Bool.not_eq_true] at hc
    simp [hc, exceptFS]

theorem installStage_ok (ext : Ext) (rootDir : String) (fs fs' : FS)
    (h : installStage ext rootDir fs = .ok fs') :
    ext.installOk = true ∧ fs' = applyManifestEffect rootDir fs ext.installEffect := by
  rw [installStage] at h
  by_cases hio : ext.installOk = true
  · simp only [hio, if_true, Except.ok.injEq] at h
    exact ⟨hio, h.symm⟩
  · simp only [Bool.not_eq_true] at hio
    simp [hio] at h

theorem updatePackageJson_ok (rootDir : String) (fs : FS) (u : UpdateResult)
    (fs' : FS) (h : updatePackageJson rootDir fs = .ok (u, fs')) :
    ∃ m : Manifest,
      lookupFS fs (pathJoin rootDir "package.json") = some (.json m) ∧
      u = { removedFields := removedFieldsOf m, oldScripts := m.scripts.getD [] } ∧
      fs' = writeFS fs (pathJoin rootDir "package.json")
              (.json (updatedManifest m)) := by
  rw [updatePackageJson] at h
  cases hl : lookupFS fs (pathJoin rootDir "package.json") with
  | none => rw [hl] at h; exact absurd h (by simp)
  | some d =>
    cases d with
    | json m =>
      rw [hl] at h
      simp only [Except.ok.injEq, Prod.mk.injEq] at h
      exact ⟨m, rfl, h.1.symm, h.2.symm⟩
    | conf v => rw [hl] at h; exact absurd h (by simp)
    | blob n => rw [hl] at h; exact absurd h (by simp)
    | bad => rw [hl] at h; exact absurd h (by simp)
    | dir => rw [hl] at h; exact absurd h (by simp)

theorem updatePackageJson_frame (rootDir : String) (fs : FS)
    (u : UpdateResult) (fs' : FS)
    (h : updatePackageJson rootDir fs = .ok (u, fs')) (q : String)
    (hq : q ≠ pathJoin rootDir "package.json") :
    lookupFS fs' q = lookupFS fs q := by
  obtain ⟨m, _, _, hfs⟩ := updatePackageJson_ok rootDir fs u fs' h
  have hne : pathJoin rootDir "package.json" ≠ q := fun he => hq he.symm
  rw [hfs, lookupFS_writeFS]
  simp [hne]

theorem removePackagesStage_frame (ext : Ext) (pm : PM) (rootDir : String)
    (fs : FS) (q : String) (hq : q ≠ pathJoin rootDir "package.json") :
    lookupFS (removePackagesStage ext pm rootDir fs).2.2 q
      = lookupFS fs q := by
  rw [removePackagesStage, removeOldPackages]
  cases hl : lookupFS fs (pathJoin rootDir "package.json") with
  | none => rfl
  | some d =>
    cases d with
    | json m =>
      by_cases hemp : (PACKAGES_TO_REMOVE.filter (fun name =>
          depDeclared m.devDependencies name ||
          depDeclared m.dependencies name)).isEmpty = true
      · simp [hemp]
      · simp only [Bool.not_eq_true] at hemp
        by_cases huo : ext.uninstallOk = true
        · simp only [hemp, Bool.false_eq_true, if_false, huo, if_true]
          exact applyManifestEffect_frame rootDir fs _ q hq
        · simp only [Bool.not_eq_true] at huo
          simp [hemp, huo]
    | conf v => rfl
    | blob n => rfl
    | bad => rfl
    | dir => rfl

theorem removePackagesStage_pkg (ext : Ext) (pm : PM) (rootDir : String)
    (fs : FS) (m : Manifest)
    (hl : lookupFS fs (pathJoin rootDir "package.json") = some (.json m))
    (htame : ∀ l, DepsOnly (ext.uninstallEffect l)) :
    ∃ m' : Manifest,
      lookupFS (removePackagesStage ext pm rootDir fs).2.2
        (pathJoin rootDir "package.json") = some (.json m') ∧
      m'.scripts = m.scripts ∧ m'.eslintConfig = m.eslintConfig ∧
      m'.prettier = m.prettier ∧ m'.others = m.others := by
  rw [removePackagesStage, removeOldPackages, hl]
  by_cases hemp : (PACKAGES_TO_REMOVE.filter (fun name =>
      depDeclared m.devDependencies name ||
      depDeclared m.dependencies name)).isEmpty = true
  · refine ⟨m, ?_, rfl, rfl, rfl, rfl⟩
    simp [hemp, hl]
  · simp only [Bool.not_eq_true] at hemp
    by_cases huo : ext.uninstallOk = true
    · simp only [hemp, Bool.false_eq_true, if_false, huo, if_true]
      exact applyManifestEffect_pkg rootDir fs _ m hl (htame _)
    · simp only [Bool.not_eq_true] at huo
      refine ⟨m, ?_, rfl, rfl, rfl, rfl⟩
      simp [hemp, huo, hl]

/-! ### Decomposition of a successful run -/

theorem main_exit0_decomp (ext : Ext) (rootDir : String) (fs0 : FS)
    (h0 : (main ext rootDir fs0).exitCode = 0) :
    ∃ (configs : Found) (bu : List String) (fs1 fs2 : FS)
      (u : UpdateResult) (fs4 : FS),
      findExistingConfigs rootDir fs0 = .ok configs ∧
      backupStage ext rootDir configs fs0 = .ok (bu, fs1) ∧
      installStage ext rootDir fs1 = .ok fs2 ∧
      updatePackageJson rootDir
        (writeFS fs2 (pathJoin rootDir "biome.json")
          (.conf generateBiomeConfig)) = .ok (u, fs4) ∧
      main ext rootDir fs0 =
        ⟨0,
         (removeFilesStage rootDir configs
           (removePackagesStage ext (detectPackageManager rootDir fs1)
             rootDir fs4).2.2).2,
         configs, bu, u.removedFields,
         (removePackagesStage ext (detectPackageManager rootDir fs1)
           rootDir fs4).1,
         some (installCommand (detectPackageManager rootDir fs1)),
         (removePackagesStage ext (detectPackageManager rootDir fs1)
           rootDir fs4).2.1,
         (removeFilesStage rootDir configs
           (removePackagesStage ext (detectPackageManager rootDir fs1)
             rootDir fs4).2.2).1,
         none⟩ := by
  cases hfind : findExistingConfigs rootDir fs0 with
  | error e =>
    rw [main] at h0
    simp only [hfind] at h0
    simp at h0
  | ok configs =>
    cases hback : backupStage ext rootDir configs fs0 with
    | error e =>
      rw [main] at h0
      simp only [hfind, hback] at h0
      simp at h0
    | ok res =>
      obtain ⟨bu, fs1⟩ := res
      cases hinst : installStage ext rootDir fs1 with
      | error e =>
        rw [main] at h0
        simp only [hfind, hback, hinst] at h0
        simp at h0
      | ok fs2 =>
        cases hupd : updatePackageJson rootDir
            (writeFS fs2 (pathJoin rootDir "biome.json")
              (.conf generateBiomeConfig)) with
        | error e =>
          rw [main] at h0
          simp only [hfind, hback, hinst, hupd] at h0
          simp at h0
        | ok res2 =>
          obtain ⟨u, fs4⟩ := res2
          refine ⟨configs, bu, fs1, fs2, u, fs4, rfl, hback, hinst, hupd, ?_⟩
          simp only [main, hfind, hback, hinst, hupd]

/-! ### Further helper lemmas -/

theorem lookup_mem : ∀ (l : List (String × String)) (k v : String),
    l.lookup k = some v → (k, v) ∈ l := by
  intro l
  induction l with
  | nil => intro k v h; simp [List.lookup] at h
  | cons e rest ih =>
    intro k v h
    obtain ⟨a, b⟩ := e
    by_cases hak : k = a
    · subst hak
      simp only [List.lookup, beq_self_eq_true] at h
      simp only [Option.some.injEq] at h
      simp [h]
    · have hb : (k == a) = false := beq_eq_false_iff_ne.mpr hak
      simp only [List.lookup, hb] at h
      exact List.mem_cons_of_mem _ (ih k v h)

/-- "Declared as a dependency" in the specification's sense: the key is
present in the dependency map. -/
def declaredIn (deps : Option (List (String × String))) (name : String) : Bool :=
  match deps with
  | none => false
  | some l => (l.lookup name).isSome

/-- Well-formedness of a manifest's dependency maps: every declared version
string is non-empty (hence truthy in JavaScript). -/
def versionsTruthy (m : Manifest) : Prop :=
  (∀ p ∈ m.devDependencies.getD [], p.2 ≠ "") ∧
  (∀ p ∈ m.dependencies.getD [], p.2 ≠ "")

theorem depDeclared_eq_declaredIn (deps : Option (List (String × String)))
    (name : String) (hwf : ∀ p ∈ deps.getD [], p.2 ≠ "") :
    depDeclared deps name = declaredIn deps name := by
  cases deps with
  | none => rfl
  | some l =>
    rw [depDeclared, declaredIn]
    cases hl : l.lookup name with
    | none => rfl
    | some v =>
      have hv : v ≠ "" := hwf (name, v) (by simpa using lookup_mem l name v hl)
      simp [bne_iff_ne, hv]

theorem backupLoop_all_inc (ext : Ext) (rootDir bdir : String) :
    ∀ (files : List String) (fs : FS) (acc : List String),
      (∀ f ∈ files, strIncludes f "package.json" = true) →
      backupLoop ext rootDir bdir files fs acc = .ok (acc, fs) := by
  intro files
  induction files with
  | nil => intro fs acc _; rfl
  | cons g rest ih =>
    intro fs acc hall
    rw [backupLoop]
    have hg : strIncludes g "package.json" = true := hall g (by simp)
    simp only [hg, if_true]
    exact ih fs acc (fun f hf => hall f (by simp [hf]))

theorem installStage_error (ext : Ext) (rootDir : String) (fs e : FS)
    (h : installStage ext rootDir fs = .error e) :
    ext.installOk = false ∧ e = fs := by
  rw [installStage] at h
  by_cases hio : ext.installOk = true
  · simp [hio] at h
  · simp only [Bool.not_eq_true] at hio
    simp only [hio, Bool.false_eq_true, if_false, Except.error.injEq] at h
    exact ⟨hio, h.symm⟩

theorem updatePackageJson_error (rootDir : String) (fs e : FS)
    (h : updatePackageJson rootDir fs = .error e) : e = fs := by
  rw [updatePackageJson] at h
  cases hl : lookupFS fs (pathJoin rootDir "package.json") with
  | none => rw [hl] at h; simpa using h.symm
  | some d =>
    cases d with
    | json m => rw [hl] at h; exact absurd h (by simp)
    | conf v => rw [hl] at h; simpa using h.symm
    | blob n => rw [hl] at h; simpa using h.symm
    | bad => rw [hl] at h; simpa using h.symm
    | dir => rw [hl] at h; simpa using h.symm

/-! ## Claim C6 -/

/-- C6: the dependency-removal step filters the fixed legacy package list to
exactly those names declared in the manifest's `dependencies` or
`devDependencies` (given truthy version strings), invokes the package
manager's uninstall command for exactly that filtered subset, and invokes
no command at all when the subset is empty. -/
theorem removeOldPackages_exact (ext : Ext) (pm : PM) (rootDir : String)
    (fs : FS) (m : Manifest)
    (hl : lookupFS fs (pathJoin rootDir "package.json") = some (.json m))
    (hwf : versionsTruthy m) :
    (PACKAGES_TO_REMOVE.filter (fun n =>
        declaredIn m.devDependencies n || declaredIn m.dependencies n) = [] →
      removeOldPackages ext pm rootDir fs = .ok ([], none, fs)) ∧
    (PACKAGES_TO_REMOVE.filter (fun n =>
        declaredIn m.devDependencies n || declaredIn m.dependencies n) ≠ [] →
      ext.uninstallOk = true →
      ∃ fs', removeOldPackages ext pm rootDir fs
        = .ok (PACKAGES_TO_REMOVE.filter (fun n =>
            declaredIn m.devDependencies n || declaredIn m.dependencies n),
          some (uninstallCommand pm (PACKAGES_TO_REMOVE.filter (fun n =>
            declaredIn m.devDependencies n || declaredIn m.dependencies n))),
          fs')) := by
  have hfe : PACKAGES_TO_REMOVE.filter (fun n =>
      depDeclared m.devDependencies n || depDeclared m.dependencies n)
      = PACKAGES_TO_REMOVE.filter (fun n =>
      declaredIn m.devDependencies n || declaredIn m.dependencies n) := by
    apply List.filter_congr
    intro n _
    rw [depDeclared_eq_declaredIn m.devDependencies n hwf.1,
        depDeclared_eq_declaredIn m.dependencies n hwf.2]
  constructor
  · intro hemp
    simp only [removeOldPackages, hl]
    rw [hfe]
    simp [hemp]
  · intro hne huo
    simp only [removeOldPackages, hl]
    rw [hfe]
    have : (PACKAGES_TO_REMOVE.filter (fun n =>
        declaredIn m.devDependencies n || declaredIn m.dependencies n)).isEmpty
        = false := by
      rw [List.isEmpty_eq_false_iff_exists_mem]
      cases hc : PACKAGES_TO_REMOVE.filter (fun n =>
          declaredIn m.devDependencies n || declaredIn m.dependencies n) with
      | nil => exact absurd hc hne
      | cons a l => exact ⟨a, by simp [hc]⟩
    simp only [this, Bool.false_eq_true, if_false, huo, if_true]
    exact ⟨_, rfl⟩

/-- Concrete instance for C6: a manifest declaring exactly `eslint` and
`prettier` in `devDependencies` leads to an uninstall of exactly those two. -/
theorem removeOldPackages_exact_witness :
    versionsTruthy
      { dependencies := none,
        devDependencies := some [("eslint", "8.0.0"), ("prettier", "3.0.0")],
        scripts := none, eslintConfig := false, prettier := false,
        others := [] } ∧
    ∃ fs', removeOldPackages
      { copyFail := fun _ => false, installOk := true, installEffect := id,
        uninstallOk := true, uninstallEffect := fun _ o => o } .npm "p"
      [(pathJoin "p" "package.json", .json
        { dependencies := none,
          devDependencies := some [("eslint", "8.0.0"), ("prettier", "3.0.0")],
          scripts := none, eslintConfig := false, prettier := false,
          others := [] })]
      = .ok (["eslint", "prettier"],
             some "npm uninstall eslint prettier", fs') := by
  constructor
  · exact (by unfold versionsTruthy; decide : versionsTruthy
      { dependencies := none,
        devDependencies := some [("eslint", "8.0.0"), ("prettier", "3.0.0")],
        scripts := none, eslintConfig := false, prettier := false,
        others := [] })
  · exact (removeOldPackages_exact
      { copyFail := fun _ => false, installOk := true, installEffect := id,
        uninstallOk := true, uninstallEffect := fun _ o => o } .npm "p"
      [(pathJoin "p" "package.json", .json
        { dependencies := none,
          devDependencies := some [("eslint", "8.0.0"), ("prettier", "3.0.0")],
          scripts := none, eslintConfig := false, prettier := false,
          others := [] })]
      { dependencies := none,
        devDependencies := some [("eslint", "8.0.0"), ("prettier", "3.0.0")],
        scripts := none, eslintConfig := false, prettier := false,
        others := [] }
      (by rfl)
      (by unfold versionsTruthy; decide)).2
      (by decide) rfl

/-! ## Claim C9 -/

/-- C9: after a successful manifest update, the written manifest's scripts
object exists and contains all five fixed entries with the fixed Biome
command strings — also when the input manifest had no `scripts` field — and
every top-level field other than `scripts`, `eslintConfig` and `prettier`
is unchanged. -/
theorem updatePackageJson_scripts (rootDir : String) (fs : FS) (m : Manifest)
    (hl : lookupFS fs (pathJoin rootDir "package.json") = some (.json m)) :
    ∃ (u : UpdateResult) (fs' : FS),
      updatePackageJson rootDir fs = .ok (u, fs') ∧
      ∃ m' : Manifest,
        lookupFS fs' (pathJoin rootDir "package.json") = some (.json m') ∧
        m'.scripts.isSome = true ∧
        (∀ kv ∈ scriptUpdates, (m'.scripts.getD []).lookup kv.1 = some kv.2) ∧
        m'.dependencies = m.dependencies ∧
        m'.devDependencies = m.devDependencies ∧
        m'.others = m.others := by
  refine ⟨{ removedFields := removedFieldsOf m,
            oldScripts := m.scripts.getD [] },
          writeFS fs (pathJoin rootDir "package.json")
            (.json (updatedManifest m)), ?_, updatedManifest m, ?_, ?_, ?_,
          rfl, rfl, rfl⟩
  · rw [updatePackageJson, hl]
  · rw [lookupFS_writeFS]; simp
  · rfl
  · intro kv hkv
    simpa [updatedManifest] using applyScriptUpdates_lookup (m.scripts.getD []) kv hkv

/-- Concrete instance for C9: a manifest with no `scripts` field at all. -/
theorem updatePackageJson_scripts_witness :
    ∃ (u : UpdateResult) (fs' : FS),
      updatePackageJson "p"
        [(pathJoin "p" "package.json", .json
          { dependencies := none, devDependencies := none, scripts := none,
            eslintConfig := false, prettier := false,
            others := [("name", "demo")] })] = .ok (u, fs') ∧
      ∃ m' : Manifest,
        lookupFS fs' (pathJoin "p" "package.json") = some (.json m') ∧
        m'.scripts.isSome = true ∧
        (∀ kv ∈ scriptUpdates, (m'.scripts.getD []).lookup kv.1 = some kv.2) ∧
        m'.dependencies = none ∧
        m'.devDependencies = none ∧
        m'.others = [("name", "demo")] :=
  updatePackageJson_scripts "p" _
    { dependencies := none, devDependencies := none, scripts := none,
      eslintConfig := false, prettier := false,
      others := [("name", "demo")] } rfl

/-! ## Claim C10 -/

/-- C10: both the backup step and the file-removal step test each standalone
entry for existence first: a detected legacy file that no longer exists in
the project root is silently skipped (absent from the returned list) and
causes no error. -/
theorem missing_file_skipped (ext : Ext) (rootDir : String) (cfgs : Found)
    (fs : FS) (f : String)
    (hp : plainFile f = true) (hb : f ≠ backupDirName)
    (hex : existsSync fs (pathJoin rootDir f) = false)
    (hcf : ∀ g, ext.copyFail g = false) :
    (∃ (rec : BackupRecord) (fs' : FS),
       backupConfigs ext rootDir cfgs fs = .ok (rec, fs') ∧
       f ∉ rec.backedUp) ∧
    f ∉ (removeConfigFiles rootDir cfgs fs).1 := by
  constructor
  · rw [backupConfigs]
    obtain ⟨bu, fs', hloop⟩ := backupLoop_ok ext rootDir
      (pathJoin rootDir backupDirName) (cfgs.eslint ++ cfgs.prettier)
      (if existsSync fs (pathJoin rootDir backupDirName) then fs
       else writeFS fs (pathJoin rootDir backupDirName) .dir) []
      (fun g _ => hcf g)
    rw [hloop]
    refine ⟨{ backupDir := pathJoin rootDir backupDirName, backedUp := bu },
            fs', rfl, ?_⟩
    refine backupLoop_not_mem ext rootDir _ _ _ bu fs' f hloop hp ?_
      (by simp)
    by_cases hmk : existsSync fs (pathJoin rootDir backupDirName) = true
    · simp [hmk, hex]
    · simp only [Bool.not_eq_true] at hmk
      simp only [hmk, Bool.false_eq_true, if_false]
      rw [existsSync_writeFS_ne]
      · exact hex
      · exact pathJoin_ne_of_ne rootDir (fun he => hb he.symm)
  · exact removeLoop_not_mem rootDir _ fs [] f hex (by simp)

/-- Concrete instance for C10: `.eslintrc` listed as detected but absent
from the filesystem. -/
theorem missing_file_skipped_witness :
    (∃ (rec : BackupRecord) (fs' : FS),
       backupConfigs
         { copyFail := fun _ => false, installOk := true, installEffect := id,
           uninstallOk := true, uninstallEffect := fun _ o => o }
         "p" ⟨[".eslintrc"], []⟩ [] = .ok (rec, fs') ∧
       ".eslintrc" ∉ rec.backedUp) ∧
    ".eslintrc" ∉ (removeConfigFiles "p" ⟨[".eslintrc"], []⟩ []).1 :=
  missing_file_skipped
    { copyFail := fun _ => false, installOk := true, installEffect := id,
      uninstallOk := true, uninstallEffect := fun _ o => o }
    "p" ⟨[".eslintrc"], []⟩ [] ".eslintrc" (by decide) (by decide) rfl
    (fun _ => rfl)

/-! ## Claim C8 -/

/-- C8: when every detected entry is an embedded-manifest-field sentinel (no
standalone files), the backup step still runs: the fixed-name backup
directory exists afterwards (and survives to the end of the run) while the
successfully-copied list is empty. -/
theorem sentinel_only_backup (ext : Ext) (rootDir : String) (fs0 : FS)
    (cfgs : Found)
    (hfind : findExistingConfigs rootDir fs0 = .ok cfgs)
    (hne : (cfgs.eslint.length > 0 || cfgs.prettier.length > 0) = true)
    (hall : ∀ f ∈ cfgs.eslint ++ cfgs.prettier,
      strIncludes f "package.json" = true) :
    (main ext rootDir fs0).backedUp = [] ∧
    existsSync (main ext rootDir fs0).fs
      (pathJoin rootDir backupDirName) = true := by
  have hsenloop := backupLoop_all_inc ext rootDir
    (pathJoin rootDir backupDirName) (cfgs.eslint ++ cfgs.prettier)
    (if existsSync fs0 (pathJoin rootDir backupDirName) then fs0
     else writeFS fs0 (pathJoin rootDir backupDirName) .dir) [] hall
  have hbc : backupConfigs ext rootDir cfgs fs0
      = .ok ({ backupDir := pathJoin rootDir backupDirName, backedUp := [] },
             if existsSync fs0 (pathJoin rootDir backupDirName) then fs0
             else writeFS fs0 (pathJoin rootDir backupDirName) .dir) := by
    simp only [backupConfigs]
    rw [hsenloop]
  have hback : backupStage ext rootDir cfgs fs0
      = .ok ([], if existsSync fs0 (pathJoin rootDir backupDirName) then fs0
                 else writeFS fs0 (pathJoin rootDir backupDirName) .dir) := by
    rw [backupStage]
    simp only [hne, if_true, hbc]
  have hbd : existsSync (if existsSync fs0 (pathJoin rootDir backupDirName)
      then fs0 else writeFS fs0 (pathJoin rootDir backupDirName) .dir)
      (pathJoin rootDir backupDirName) = true := by
    by_cases hmk : existsSync fs0 (pathJoin rootDir backupDirName) = true
    · simp [hmk]
    · simp only [Bool.not_eq_true] at hmk
      simp only [hmk, Bool.false_eq_true, if_false]
      rw [existsSync, lookupFS_writeFS]
      simp
  generalize hfs0e : (if existsSync fs0 (pathJoin rootDir backupDirName)
      then fs0 else writeFS fs0 (pathJoin rootDir backupDirName) .dir)
      = fs1 at hback hbd
  have hbdne_pkg : pathJoin rootDir backupDirName
      ≠ pathJoin rootDir "package.json" :=
    pathJoin_ne_of_ne rootDir (by decide)
  cases hinst : installStage ext rootDir fs1 with
  | error e =>
    obtain ⟨_, he⟩ := installStage_error ext rootDir fs1 e hinst
    rw [main]
    simp only [hfind, hback, hinst]
    subst he
    exact ⟨by trivial, hbd⟩
  | ok fs2 =>
    obtain ⟨_, hfs2⟩ := installStage_ok ext rootDir fs1 fs2 hinst
    have hex2 : existsSync fs2 (pathJoin rootDir backupDirName) = true := by
      rw [existsSync, hfs2,
          applyManifestEffect_frame rootDir fs1 _ _ hbdne_pkg]
      exact hbd
    have hex3 : existsSync (writeFS fs2 (pathJoin rootDir "biome.json")
        (.conf generateBiomeConfig)) (pathJoin rootDir backupDirName)
        = true := by
      rw [existsSync_writeFS_ne]
      · exact hex2
      · exact pathJoin_ne_of_ne rootDir (by decide)
    cases hupd : updatePackageJson rootDir (writeFS fs2
        (pathJoin rootDir "biome.json") (.conf generateBiomeConfig)) with
    | error e =>
      have he := updatePackageJson_error rootDir _ e hupd
      rw [main]
      simp only [hfind, hback, hinst, hupd]
      exact ⟨by trivial, by rw [he]; exact hex3⟩
    | ok res =>
      obtain ⟨u, fs4⟩ := res
      have hex4 : existsSync fs4 (pathJoin rootDir backupDirName) = true := by
        rw [existsSync, updatePackageJson_frame rootDir _ u fs4 hupd _
          hbdne_pkg]
        exact hex3
      have hex5 : existsSync (removePackagesStage ext
          (detectPackageManager rootDir fs1) rootDir fs4).2.2
          (pathJoin rootDir backupDirName) = true := by
        rw [existsSync, removePackagesStage_frame ext _ rootDir fs4 _
          hbdne_pkg]
        exact hex4
      rw [main]
      simp only [hfind, hback, hinst, hupd]
      refine ⟨by trivial, ?_⟩
      rw [removeFilesStage]
      simp only [hne, if_true]
      rw [removeConfigFiles, existsSync,
          removeLoop_frame rootDir (cfgs.eslint ++ cfgs.prettier) _ []
            (pathJoin rootDir backupDirName)
            (fun f hf hfi => absurd (hall f hf) (by simp [hfi]))]
      exact hex5

/-- Concrete instance for C8: the only detected entry is the embedded
`eslintConfig` sentinel. -/
theorem sentinel_only_backup_witness :
    (main
      { copyFail := fun _ => false, installOk := true, installEffect := id,
        uninstallOk := true, uninstallEffect := fun _ o => o } "p"
      [(pathJoin "p" "package.json", .json
        { dependencies := none, devDependencies := none, scripts := none,
          eslintConfig := true, prettier := false, others := [] })]).backedUp
      = [] ∧
    existsSync (main
      { copyFail := fun _ => false, installOk := true, installEffect := id,
        uninstallOk := true, uninstallEffect := fun _ o => o } "p"
      [(pathJoin "p" "package.json", .json
        { dependencies := none, devDependencies := none, scripts := none,
          eslintConfig := true, prettier := false, others := [] })]).fs
      (pathJoin "p" backupDirName) = true :=
  sentinel_only_backup _ "p" _ ⟨[eslintSentinel], []⟩ rfl (by decide)
    (by decide)

/-! ## Claim C4 (corrected) -/

/-- C4 counterexample: on a root whose `package.json` does not parse,
`findExistingConfigs` does not return a `LegacyConfigSet` — the uncaught
`JSON.parse` exception propagates (the `.error` result), refuting "config
detection never throws". -/
theorem findExistingConfigs_throws_on_malformed :
    findExistingConfigs "p" [(pathJoin "p" "package.json", .bad)]
      = .error [(pathJoin "p" "package.json", .bad)] := rfl

/-- C4 amended: detection returns a `LegacyConfigSet` whenever the manifest
is absent or parses as a JSON object; but when `package.json` exists and is
unparsable, detection throws, and the run aborts with exit status 1 leaving
the filesystem untouched (the error is not treated as "no embedded
config"). -/
theorem detection_error_semantics (ext : Ext) (rootDir : String) (fs : FS) :
    ((lookupFS fs (pathJoin rootDir "package.json") = none ∨
      ∃ m : Manifest, lookupFS fs (pathJoin rootDir "package.json")
        = some (.json m)) →
     ∃ cfgs : Found, findExistingConfigs rootDir fs = .ok cfgs) ∧
    (∀ d : FData, lookupFS fs (pathJoin rootDir "package.json") = some d →
     (∀ m : Manifest, d ≠ .json m) →
     findExistingConfigs rootDir fs = .error fs ∧
     (main ext rootDir fs).exitCode = 1 ∧
     (main ext rootDir fs).fs = fs) := by
  constructor
  · intro h
    rcases h with h | ⟨m, h⟩
    · exact ⟨_, by rw [findExistingConfigs, h]⟩
    · exact ⟨_, by rw [findExistingConfigs, h]⟩
  · intro d hd hnj
    have hfind : findExistingConfigs rootDir fs = .error fs := by
      rw [findExistingConfigs, hd]
      cases d with
      | json m => exact absurd rfl (hnj m)
      | conf v => rfl
      | blob n => rfl
      | bad => rfl
      | dir => rfl
    refine ⟨hfind, ?_, ?_⟩
    · rw [main]; simp only [hfind]
    · rw [main]; simp only [hfind]

/-- Concrete instance for the amended C4: a malformed manifest aborts the
run with exit status 1 and an unchanged filesystem. -/
theorem detection_error_semantics_witness :
    findExistingConfigs "p" [(pathJoin "p" "package.json", .bad)]
      = .error [(pathJoin "p" "package.json", .bad)] ∧
    (main
      { copyFail := fun _ => false, installOk := true, installEffect := id,
        uninstallOk := true, uninstallEffect := fun _ o => o } "p"
      [(pathJoin "p" "package.json", .bad)]).exitCode = 1 ∧
    (main
      { copyFail := fun _ => false, installOk := true, installEffect := id,
        uninstallOk := true, uninstallEffect := fun _ o => o } "p"
      [(pathJoin "p" "package.json", .bad)]).fs
      = [(pathJoin "p" "package.json", .bad)] :=
  (detection_error_semantics _ "p" [(pathJoin "p" "package.json", .bad)]).2
    .bad rfl (fun _ h => FData.noConfusion h)

/-! ## Claim C3 (corrected) -/

/-- C3 counterexample: with two detected standalone files where copying the
first fails, the backup step aborts (throws) instead of continuing: the
second file is never copied into the backup directory, refuting "a copy
failure for one file does not abort copying of the remaining files". -/
theorem backup_copy_failure_aborts :
    backupConfigs
      { copyFail := fun f => f == ".eslintrc", installOk := true,
        installEffect := id, uninstallOk := true,
        uninstallEffect := fun _ o => o } "p"
      ⟨[".eslintrc"], [".prettierrc"]⟩
      [(pathJoin "p" ".eslintrc", .blob 0),
       (pathJoin "p" ".prettierrc", .blob 1)]
      = .error (writeFS
          [(pathJoin "p" ".eslintrc", .blob 0),
           (pathJoin "p" ".prettierrc", .blob 1)]
          (pathJoin "p" backupDirName) .dir) ∧
    lookupFS (writeFS
        [(pathJoin "p" ".eslintrc", .blob 0),
         (pathJoin "p" ".prettierrc", .blob 1)]
        (pathJoin "p" backupDirName) .dir)
      (pathJoin (pathJoin "p" backupDirName) ".prettierrc") = none :=
  ⟨rfl, rfl⟩

/-- C3 amended: a per-file copy failure during backup is fatal, not
tolerated: the exception aborts the whole run with exit status 1 before any
file removal, so no remaining file is copied and nothing (including the
failed file) is ever deleted. -/
theorem backup_copy_failure_fatal (ext : Ext) (rootDir : String) (fs0 : FS)
    (cfgs : Found) (e : FS)
    (hfind : findExistingConfigs rootDir fs0 = .ok cfgs)
    (hne : (cfgs.eslint.length > 0 || cfgs.prettier.length > 0) = true)
    (hberr : backupConfigs ext rootDir cfgs fs0 = .error e) :
    (main ext rootDir fs0).exitCode = 1 ∧
    (main ext rootDir fs0).removedFiles = [] ∧
    (main ext rootDir fs0).fs = e ∧
    (main ext rootDir fs0).failedAt = some .backup := by
  have hback : backupStage ext rootDir cfgs fs0 = .error e := by
    rw [backupStage]
    simp only [hne, if_true, hberr]
  rw [main]
  simp only [hfind, hback]
  exact ⟨by trivial, by trivial, by trivial, by trivial⟩

/-- Concrete instance for the amended C3, at the counterexample's input. -/
theorem backup_copy_failure_fatal_witness :
    (main
      { copyFail := fun f => f == ".eslintrc", installOk := true,
        installEffect := id, uninstallOk := true,
        uninstallEffect := fun _ o => o } "p"
      [(pathJoin "p" ".eslintrc", .blob 0),
       (pathJoin "p" ".prettierrc", .blob 1)]).exitCode = 1 ∧
    (main
      { copyFail := fun f => f == ".eslintrc", installOk := true,
        installEffect := id, uninstallOk := true,
        uninstallEffect := fun _ o => o } "p"
      [(pathJoin "p" ".eslintrc", .blob 0),
       (pathJoin "p" ".prettierrc", .blob 1)]).removedFiles = [] ∧
    (main
      { copyFail := fun f => f == ".eslintrc", installOk := true,
        installEffect := id, uninstallOk := true,
        uninstallEffect := fun _ o => o } "p"
      [(pathJoin "p" ".eslintrc", .blob 0),
       (pathJoin "p" ".prettierrc", .blob 1)]).fs
      = writeFS
          [(pathJoin "p" ".eslintrc", .blob 0),
           (pathJoin "p" ".prettierrc", .blob 1)]
          (pathJoin "p" backupDirName) .dir ∧
    (main
      { copyFail := fun f => f == ".eslintrc", installOk := true,
        installEffect := id, uninstallOk := true,
        uninstallEffect := fun _ o => o } "p"
      [(pathJoin "p" ".eslintrc", .blob 0),
       (pathJoin "p" ".prettierrc", .blob 1)]).failedAt = some .backup :=
  backup_copy_failure_fatal _ "p" _ ⟨[".eslintrc"], [".prettierrc"]⟩ _
    rfl (by decide) rfl

/-! ## Claim C5 (corrected) -/

/-- C5 counterexample: a manifest-update failure (here: `package.json`
missing when `updatePackageJson` re-reads it) terminates the run with exit
status 1; the dependency-removal and file-removal steps never run (no
uninstall command, no files removed), refuting "a manifest-update failure
is non-fatal for the run". -/
theorem manifest_update_failure_terminates :
    (main
      { copyFail := fun _ => false, installOk := true, installEffect := id,
        uninstallOk := true, uninstallEffect := fun _ o => o } "p"
      [(pathJoin "p" ".eslintrc", .blob 0)]).exitCode = 1 ∧
    (main
      { copyFail := fun _ => false, installOk := true, installEffect := id,
        uninstallOk := true, uninstallEffect := fun _ o => o } "p"
      [(pathJoin "p" ".eslintrc", .blob 0)]).removedFiles = [] ∧
    (main
      { copyFail := fun _ => false, installOk := true, installEffect := id,
        uninstallOk := true, uninstallEffect := fun _ o => o } "p"
      [(pathJoin "p" ".eslintrc", .blob 0)]).uninstallCmd = none ∧
    (main
      { copyFail := fun _ => false, installOk := true, installEffect := id,
        uninstallOk := true, uninstallEffect := fun _ o => o } "p"
      [(pathJoin "p" ".eslintrc", .blob 0)]).failedAt = some .update :=
  ⟨rfl, rfl, rfl, rfl⟩

/-- C5 amended: a failure inside `updatePackageJson` is fatal: the uncaught
exception reaches the top-level handler, the process exits with status 1,
and neither the dependency-removal step nor the file-removal step runs. -/
theorem manifest_update_failure_fatal (ext : Ext) (rootDir : String)
    (fs0 : FS) (h : (main ext rootDir fs0).failedAt = some .update) :
    (main ext rootDir fs0).exitCode = 1 ∧
    (main ext rootDir fs0).removedFiles = [] ∧
    (main ext rootDir fs0).removedPackages = [] ∧
    (main ext rootDir fs0).uninstallCmd = none := by
  cases hfind : findExistingConfigs rootDir fs0 with
  | error e =>
    rw [main] at h
    simp only [hfind] at h
    exact absurd h (by simp)
  | ok configs =>
    cases hback : backupStage ext rootDir configs fs0 with
    | error e =>
      rw [main] at h
      simp only [hfind, hback] at h
      exact absurd h (by simp)
    | ok res =>
      obtain ⟨bu, fs1⟩ := res
      cases hinst : installStage ext rootDir fs1 with
      | error e =>
        rw [main] at h
        simp only [hfind, hback, hinst] at h
        exact absurd h (by simp)
      | ok fs2 =>
        cases hupd : updatePackageJson rootDir
            (writeFS fs2 (pathJoin rootDir "biome.json")
              (.conf generateBiomeConfig)) with
        | error e =>
          rw [main]
          simp only [hfind, hback, hinst, hupd]
          exact ⟨by trivial, by trivial, by trivial, by trivial⟩
        | ok res2 =>
          obtain ⟨u, fs4⟩ := res2
          rw [main] at h
          simp only [hfind, hback, hinst, hupd] at h
          exact absurd h (by simp)

/-- Concrete instance for the amended C5, at the counterexample's input. -/
theorem manifest_update_failure_fatal_witness :
    (main
      { copyFail := fun _ => false, installOk := true, installEffect := id,
        uninstallOk := true, uninstallEffect := fun _ o => o } "p"
      [(pathJoin "p" ".eslintrc", .blob 0)]).exitCode = 1 ∧
    (main
      { copyFail := fun _ => false, installOk := true, installEffect := id,
        uninstallOk := true, uninstallEffect := fun _ o => o } "p"
      [(pathJoin "p" ".eslintrc", .blob 0)]).removedFiles = [] ∧
    (main
      { copyFail := fun _ => false, installOk := true, installEffect := id,
        uninstallOk := true, uninstallEffect := fun _ o => o } "p"
      [(pathJoin "p" ".eslintrc", .blob 0)]).removedPackages = [] ∧
    (main
      { copyFail := fun _ => false, installOk := true, installEffect := id,
        uninstallOk := true, uninstallEffect := fun _ o => o } "p"
      [(pathJoin "p" ".eslintrc", .blob 0)]).uninstallCmd = none :=
  manifest_update_failure_fatal _ "p" _ rfl

/-! ## Claim C2 -/

/-- C2: when the install command fails (non-zero exit or spawn failure),
the process exits with a non-zero status and, except for paths inside the
backup directory, the filesystem equals the pre-run state: no script
entries modified, no embedded fields removed, no `biome.json` written, no
legacy file deleted, and no uninstall command ever invoked. -/
theorem install_failure_aborts (ext : Ext) (rootDir : String) (fs0 : FS)
    (hio : ext.installOk = false) :
    (main ext rootDir fs0).exitCode = 1 ∧
    (main ext rootDir fs0).removedFiles = [] ∧
    (main ext rootDir fs0).removedFields = [] ∧
    (main ext rootDir fs0).uninstallCmd = none ∧
    ∀ q : String, underBackup rootDir q = false →
      lookupFS (main ext rootDir fs0).fs q = lookupFS fs0 q := by
  cases hfind : findExistingConfigs rootDir fs0 with
  | error e =>
    have he : e = fs0 := by
      rw [findExistingConfigs] at hfind
      cases hl : lookupFS fs0 (pathJoin rootDir "package.json") with
      | none => rw [hl] at hfind; exact absurd hfind (by simp)
      | some d =>
        cases d with
        | json m => rw [hl] at hfind; exact absurd hfind (by simp)
        | conf v => rw [hl] at hfind; simpa using hfind.symm
        | blob n => rw [hl] at hfind; simpa using hfind.symm
        | bad => rw [hl] at hfind; simpa using hfind.symm
        | dir => rw [hl] at hfind; simpa using hfind.symm
    rw [main]
    simp only [hfind]
    subst he
    exact ⟨by trivial, by trivial, by trivial, by trivial, fun q _ => rfl⟩
  | ok configs =>
    cases hback : backupStage ext rootDir configs fs0 with
    | error e =>
      rw [main]
      simp only [hfind, hback]
      refine ⟨by trivial, by trivial, by trivial, by trivial, fun q hq => ?_⟩
      have := backupStage_frame ext rootDir configs fs0 q hq
      rw [hback] at this
      simpa [exceptFS] using this
    | ok res =>
      obtain ⟨bu, fs1⟩ := res
      have hinst : installStage ext rootDir fs1 = .error fs1 := by
        rw [installStage]
        simp [hio]
      rw [main]
      simp only [hfind, hback, hinst]
      refine ⟨by trivial, by trivial, by trivial, by trivial, fun q hq => ?_⟩
      have := backupStage_frame ext rootDir configs fs0 q hq
      rw [hback] at this
      simpa [exceptFS] using this

/-- Concrete instance for C2: with a failing install, `package.json` and a
detected `.eslintrc` are untouched and the run exits 1. -/
theorem install_failure_aborts_witness :
    (main
      { copyFail := fun _ => false, installOk := false, installEffect := id,
        uninstallOk := true, uninstallEffect := fun _ o => o } "p"
      [(pathJoin "p" "package.json", .json
        { dependencies := none, devDependencies := none, scripts := none,
          eslintConfig := false, prettier := false, others := [] }),
       (pathJoin "p" ".eslintrc", .blob 0)]).exitCode = 1 ∧
    (main
      { copyFail := fun _ => false, installOk := false, installEffect := id,
        uninstallOk := true, uninstallEffect := fun _ o => o } "p"
      [(pathJoin "p" "package.json", .json
        { dependencies := none, devDependencies := none, scripts := none,
          eslintConfig := false, prettier := false, others := [] }),
       (pathJoin "p" ".eslintrc", .blob 0)]).removedFiles = [] ∧
    lookupFS (main
      { copyFail := fun _ => false, installOk := false, installEffect := id,
        uninstallOk := true, uninstallEffect := fun _ o => o } "p"
      [(pathJoin "p" "package.json", .json
        { dependencies := none, devDependencies := none, scripts := none,
          eslintConfig := false, prettier := false, others := [] }),
       (pathJoin "p" ".eslintrc", .blob 0)]).fs
      (pathJoin "p" "package.json")
      = lookupFS
      [(pathJoin "p" "package.json", .json
        { dependencies := none, devDependencies := none, scripts := none,
          eslintConfig := false, prettier := false, others := [] }),
       (pathJoin "p" ".eslintrc", .blob 0)]
      (pathJoin "p" "package.json") := by
  have h := install_failure_aborts
    { copyFail := fun _ => false, installOk := false, installEffect := id,
      uninstallOk := true, uninstallEffect := fun _ o => o } "p"
    [(pathJoin "p" "package.json", .json
      { dependencies := none, devDependencies := none, scripts := none,
        eslintConfig := false, prettier := false, others := [] }),
     (pathJoin "p" ".eslintrc", .blob 0)] rfl
  exact ⟨h.1, h.2.1, h.2.2.2.2 (pathJoin "p" "package.json") (by decide)⟩

/-! ## Claim C1 -/

/-- C1: over any run of the pipeline, every standalone legacy config file
the file-removal step actually deletes appears in the backup record's
successfully-copied list: a detected file that was not successfully copied
into the backup directory is never deleted.  (Copy failures abort the run
before removal, and a file can only be removed if it existed at detection
time, in which case the backup step copied it.) -/
theorem removed_subset_backedUp (ext : Ext) (rootDir : String) (fs0 : FS)
    (f : String) (hf : f ∈ (main ext rootDir fs0).removedFiles) :
    f ∈ (main ext rootDir fs0).backedUp := by
  cases hfind : findExistingConfigs rootDir fs0 with
  | error e =>
    rw [main] at hf
    simp only [hfind] at hf
    exact absurd hf (by simp)
  | ok configs =>
    cases hback : backupStage ext rootDir configs fs0 with
    | error e =>
      rw [main] at hf
      simp only [hfind, hback] at hf
      exact absurd hf (by simp)
    | ok res =>
      obtain ⟨bu, fs1⟩ := res
      cases hinst : installStage ext rootDir fs1 with
      | error e =>
        rw [main] at hf
        simp only [hfind, hback, hinst] at hf
        exact absurd hf (by simp)
      | ok fs2 =>
        cases hupd : updatePackageJson rootDir
            (writeFS fs2 (pathJoin rootDir "biome.json")
              (.conf generateBiomeConfig)) with
        | error e =>
          rw [main] at hf
          simp only [hfind, hback, hinst, hupd] at hf
          exact absurd hf (by simp)
        | ok res2 =>
          obtain ⟨u, fs4⟩ := res2
          rw [main] at hf ⊢
          simp only [hfind, hback, hinst, hupd] at hf ⊢
          -- `hf` now says `f` was removed by step 8
          rw [removeFilesStage] at hf
          by_cases hc : (configs.eslint.length > 0 ||
              configs.prettier.length > 0) = true
          · simp only [hc, if_true] at hf
            rw [removeConfigFiles] at hf
            rcases removeLoop_mem rootDir (configs.eslint ++ configs.prettier)
              _ [] f hf with hacc | ⟨hmem, hinc, _⟩
            · exact absurd hacc (by simp)
            · -- `f` is a detected entry that is not a sentinel
              rcases findExistingConfigs_mem rootDir fs0 configs hfind f hmem
                with ⟨h14, hex0⟩ | hi
              · -- and hence one of the fixed config names, existing at
                -- detection time; the backup loop therefore copied it
                obtain ⟨hplain, hbdir, _, _, _⟩ := configNames_good f h14
                rw [backupStage] at hback
                simp only [hc, if_true] at hback
                cases hbc : backupConfigs ext rootDir configs fs0 with
                | error e => rw [hbc] at hback; exact absurd hback (by simp)
                | ok res3 =>
                  obtain ⟨rec, fs'⟩ := res3
                  rw [hbc] at hback
                  simp only [Except.ok.injEq, Prod.mk.injEq] at hback
                  simp only [backupConfigs] at hbc
                  cases hloop : backupLoop ext rootDir
                      (pathJoin rootDir backupDirName)
                      (configs.eslint ++ configs.prettier)
                      (if existsSync fs0 (pathJoin rootDir backupDirName)
                       then fs0
                       else writeFS fs0 (pathJoin rootDir backupDirName) .dir)
                      [] with
                  | error e => rw [hloop] at hbc; exact absurd hbc (by simp)
                  | ok res4 =>
                    obtain ⟨bu', fs''⟩ := res4
                    rw [hloop] at hbc
                    simp only [Except.ok.injEq, Prod.mk.injEq] at hbc
                    have hfbu : f ∈ bu' := by
                      refine backupLoop_mem ext rootDir _ _ [] bu' fs'' f
                        hloop hmem hinc hplain ?_
                      by_cases hmk : existsSync fs0
                          (pathJoin rootDir backupDirName) = true
                      · simpa [hmk] using hex0
                      · simp only [Bool.not_eq_true] at hmk
                        simp only [hmk, Bool.false_eq_true, if_false]
                        rw [existsSync_writeFS_ne]
                        · exact hex0
                        · exact pathJoin_ne_of_ne rootDir
                            (fun he => hbdir he.symm)
                    have hbu : bu = rec.backedUp := hback.1.symm
                    have hrec : rec.backedUp = bu' := by
                      rw [← hbc.1]
                    rw [hbu, hrec]
                    exact hfbu
              · rw [hi] at hinc
                exact absurd hinc (by simp)
          · simp only [Bool.not_eq_true] at hc
            simp only [hc, Bool.false_eq_true, if_false] at hf
            exact absurd hf (by simp)

/-- Concrete instance for C1: a run that deletes `.eslintrc` has `.eslintrc`
in the backup record. -/
theorem removed_subset_backedUp_witness :
    ".eslintrc" ∈ (main
      { copyFail := fun _ => false, installOk := true, installEffect := id,
        uninstallOk := true, uninstallEffect := fun _ o => o } "p"
      [(pathJoin "p" "package.json", .json
        { dependencies := none, devDependencies := none, scripts := none,
          eslintConfig := false, prettier := false, others := [] }),
       (pathJoin "p" ".eslintrc", .blob 0)]).removedFiles ∧
    ".eslintrc" ∈ (main
      { copyFail := fun _ => false, installOk := true, installEffect := id,
        uninstallOk := true, uninstallEffect := fun _ o => o } "p"
      [(pathJoin "p" "package.json", .json
        { dependencies := none, devDependencies := none, scripts := none,
          eslintConfig := false, prettier := false, others := [] }),
       (pathJoin "p" ".eslintrc", .blob 0)]).backedUp := by
  have hin : ".eslintrc" ∈ (main
      { copyFail := fun _ => false, installOk := true, installEffect := id,
        uninstallOk := true, uninstallEffect := fun _ o => o } "p"
      [(pathJoin "p" "package.json", .json
        { dependencies := none, devDependencies := none, scripts := none,
          eslintConfig := false, prettier := false, others := [] }),
       (pathJoin "p" ".eslintrc", .blob 0)]).removedFiles := by
    show ".eslintrc" ∈ [".eslintrc"]
    simp
  exact ⟨hin, removed_subset_backedUp _ "p" _ ".eslintrc" hin⟩

/-! ### Post-run characterization (toward idempotence) -/

/-- A "tame" external-tools oracle: both package-manager invocations only
edit the dependency fields of the manifest (the behaviour of real `npm
install`/`npm uninstall` and their analogues). -/
def TameExt (ext : Ext) : Prop :=
  DepsOnly ext.installEffect ∧ ∀ l, DepsOnly (ext.uninstallEffect l)

/-- After a successful run with a tame uninstall effect, the final
filesystem holds a parsed manifest with both embedded config fields false
and the five fixed script entries, holds the generated Biome document at
`biome.json`, and holds no standalone legacy config file. -/
theorem main_post (ext : Ext) (rootDir : String) (fs0 : FS)
    (htame : ∀ l, DepsOnly (ext.uninstallEffect l))
    (h0 : (main ext rootDir fs0).exitCode = 0) :
    ∃ M : Manifest,
      lookupFS (main ext rootDir fs0).fs (pathJoin rootDir "package.json")
        = some (.json M) ∧
      M.eslintConfig = false ∧ M.prettier = false ∧
      (∀ kv ∈ scriptUpdates, (M.scripts.getD []).lookup kv.1 = some kv.2) ∧
      lookupFS (main ext rootDir fs0).fs (pathJoin rootDir "biome.json")
        = some (.conf generateBiomeConfig) ∧
      ∀ f ∈ CONFIG_FILES_eslint ++ CONFIG_FILES_prettier,
        existsSync (main ext rootDir fs0).fs (pathJoin rootDir f)
          = false := by
  obtain ⟨configs, bu, fs1, fs2, u, fs4, hfind, hback, hinst, hupd, hmain⟩ :=
    main_exit0_decomp ext rootDir fs0 h0
  obtain ⟨m, hm3, hu, hfs4⟩ := updatePackageJson_ok rootDir _ u fs4 hupd
  obtain ⟨_, hfs2⟩ := installStage_ok ext rootDir fs1 fs2 hinst
  have hpkg4 : lookupFS fs4 (pathJoin rootDir "package.json")
      = some (.json (updatedManifest m)) := by
    rw [hfs4, lookupFS_writeFS]
    simp
  obtain ⟨M, hM5, hMs, hMe, hMp, hMo⟩ := removePackagesStage_pkg ext
    (detectPackageManager rootDir fs1) rootDir fs4 (updatedManifest m)
    hpkg4 htame
  have hne_bp : pathJoin rootDir "biome.json"
      ≠ pathJoin rootDir "package.json" :=
    pathJoin_ne_of_ne rootDir (by decide)
  -- the detected entries that are not sentinels avoid the special paths
  have hqpkg : ∀ g ∈ configs.eslint ++ configs.prettier,
      strIncludes g "package.json" = false →
      pathJoin rootDir g ≠ pathJoin rootDir "package.json" := by
    intro g hg hgi
    rcases findExistingConfigs_mem rootDir fs0 configs hfind g hg with
      ⟨h14, _⟩ | hi
    · obtain ⟨_, _, hgp, _, _⟩ := configNames_good g h14
      exact pathJoin_ne_of_ne rootDir hgp
    · rw [hi] at hgi; exact absurd hgi (by simp)
  have hqbio : ∀ g ∈ configs.eslint ++ configs.prettier,
      strIncludes g "package.json" = false →
      pathJoin rootDir g ≠ pathJoin rootDir "biome.json" := by
    intro g hg hgi
    rcases findExistingConfigs_mem rootDir fs0 configs hfind g hg with
      ⟨h14, _⟩ | hi
    · obtain ⟨_, _, _, hgb, _⟩ := configNames_good g h14
      exact pathJoin_ne_of_ne rootDir hgb
    · rw [hi] at hgi; exact absurd hgi (by simp)
  -- lookups of plain config-name paths pass unchanged from fs0 to fs5
  have haux : ∀ f : String, plainFile f = true → f ≠ backupDirName →
      f ≠ "package.json" → f ≠ "biome.json" →
      lookupFS (removePackagesStage ext (detectPackageManager rootDir fs1)
        rootDir fs4).2.2 (pathJoin rootDir f)
      = lookupFS fs0 (pathJoin rootDir f) := by
    intro f hplain hbdir hfpkg hfbio
    have hne_pkg : pathJoin rootDir f ≠ pathJoin rootDir "package.json" :=
      pathJoin_ne_of_ne rootDir hfpkg
    have hne_bio : pathJoin rootDir f ≠ pathJoin rootDir "biome.json" :=
      pathJoin_ne_of_ne rootDir hfbio
    rw [removePackagesStage_frame ext _ rootDir fs4 _ hne_pkg]
    rw [hfs4, lookupFS_writeFS,
        if_neg (fun h : pathJoin rootDir "package.json" = pathJoin rootDir f
          => hne_pkg h.symm)]
    rw [lookupFS_writeFS,
        if_neg (fun h : pathJoin rootDir "biome.json" = pathJoin rootDir f
          => hne_bio h.symm)]
    rw [hfs2, applyManifestEffect_frame rootDir fs1 _ _ hne_pkg]
    have := backupStage_frame ext rootDir configs fs0 (pathJoin rootDir f)
      (underBackup_plain_false rootDir hplain hbdir)
    rw [hback] at this
    simpa [exceptFS] using this
  rw [hmain]
  refine ⟨M, ?_, ?_, ?_, ?_, ?_, ?_⟩
  · -- the manifest survives the file-removal step
    show lookupFS (removeFilesStage rootDir configs _).2 _ = _
    rw [removeFilesStage]
    by_cases hc : (configs.eslint.length > 0 ||
        configs.prettier.length > 0) = true
    · simp only [hc, if_true]
      rw [removeConfigFiles, removeLoop_frame rootDir _ _ []
        (pathJoin rootDir "package.json") hqpkg]
      exact hM5
    · simp only [Bool.not_eq_true] at hc
      simp only [hc, Bool.false_eq_true, if_false]
      exact hM5
  · rw [hMe]; rfl
  · rw [hMp]; rfl
  · intro kv hkv
    rw [hMs]
    show ((some (applyScriptUpdates (m.scripts.getD []))).getD []).lookup kv.1
      = some kv.2
    exact applyScriptUpdates_lookup (m.scripts.getD []) kv hkv
  · -- biome.json survives to the end, with the generated document
    have hbio4 : lookupFS fs4 (pathJoin rootDir "biome.json")
        = some (.conf generateBiomeConfig) := by
      rw [hfs4, lookupFS_writeFS,
          if_neg (fun h : pathJoin rootDir "package.json"
            = pathJoin rootDir "biome.json" => hne_bp h.symm)]
      rw [lookupFS_writeFS]
      simp
    have hbio5 : lookupFS (removePackagesStage ext
        (detectPackageManager rootDir fs1) rootDir fs4).2.2
        (pathJoin rootDir "biome.json")
        = some (.conf generateBiomeConfig) := by
      rw [removePackagesStage_frame ext _ rootDir fs4 _ hne_bp]
      exact hbio4
    show lookupFS (removeFilesStage rootDir configs _).2 _ = _
    rw [removeFilesStage]
    by_cases hc : (configs.eslint.length > 0 ||
        configs.prettier.length > 0) = true
    · simp only [hc, if_true]
      rw [removeConfigFiles, removeLoop_frame rootDir _ _ []
        (pathJoin rootDir "biome.json") hqbio]
      exact hbio5
    · simp only [Bool.not_eq_true] at hc
      simp only [hc, Bool.false_eq_true, if_false]
      exact hbio5
  · -- no standalone legacy config file remains
    intro f h14
    obtain ⟨hplain, hbdir, hfpkg, hfbio, hfinc⟩ := configNames_good f h14
    by_cases hex0 : existsSync fs0 (pathJoin rootDir f) = true
    · have hmem : f ∈ configs.eslint ++ configs.prettier :=
        findExistingConfigs_mem_of_exists rootDir fs0 configs hfind f h14
          hex0
      have hc : (configs.eslint.length > 0 ||
          configs.prettier.length > 0) = true := by
        rcases List.mem_append.mp hmem with hm | hm
        · have := List.length_pos.mpr (List.ne_nil_of_mem hm)
          simp [this]
        · have := List.length_pos.mpr (List.ne_nil_of_mem hm)
          simp [this]
      have hex5 : existsSync (removePackagesStage ext
          (detectPackageManager rootDir fs1) rootDir fs4).2.2
          (pathJoin rootDir f) = true := by
        rw [existsSync, haux f hplain hbdir hfpkg hfbio]
        exact hex0
      show existsSync (removeFilesStage rootDir configs _).2 _ = false
      rw [removeFilesStage]
      simp only [hc, if_true]
      rw [removeConfigFiles, existsSync,
        removeLoop_removes rootDir _ _ [] f hmem hfinc hex5]
      rfl
    · simp only [Bool.not_eq_true] at hex0
      have hl5 : lookupFS (removePackagesStage ext
          (detectPackageManager rootDir fs1) rootDir fs4).2.2
          (pathJoin rootDir f) = none := by
        rw [haux f hplain hbdir hfpkg hfbio]
        rw [existsSync] at hex0
        exact Option.not_isSome_iff_eq_none.mp (by simp [hex0])
      show existsSync (removeFilesStage rootDir configs _).2 _ = false
      rw [removeFilesStage]
      by_cases hc : (configs.eslint.length > 0 ||
          configs.prettier.length > 0) = true
      · simp only [hc, if_true]
        rw [removeConfigFiles, existsSync,
          removeLoop_none_mono rootDir _ _ [] _ hl5]
        rfl
      · simp only [Bool.not_eq_true] at hc
        simp only [hc, Bool.false_eq_true, if_false]
        rw [existsSync, hl5]
        rfl

/-- Running the migration on a "clean" root — no standalone legacy config
files, a parsed manifest with both embedded fields absent — succeeds
(exit 0) and leaves the generated Biome document and the five fixed script
entries in place. -/
theorem main_on_clean (ext : Ext) (rootDir : String) (fs : FS) (M : Manifest)
    (hti : DepsOnly ext.installEffect)
    (htu : ∀ l, DepsOnly (ext.uninstallEffect l))
    (hio : ext.installOk = true)
    (hpkg : lookupFS fs (pathJoin rootDir "package.json") = some (.json M))
    (hfe : M.eslintConfig = false) (hfp : M.prettier = false)
    (hclean : ∀ f ∈ CONFIG_FILES_eslint ++ CONFIG_FILES_prettier,
      existsSync fs (pathJoin rootDir f) = false) :
    (main ext rootDir fs).exitCode = 0 ∧
    lookupFS (main ext rootDir fs).fs (pathJoin rootDir "biome.json")
      = some (.conf generateBiomeConfig) ∧
    ∃ m' : Manifest,
      lookupFS (main ext rootDir fs).fs (pathJoin rootDir "package.json")
        = some (.json m') ∧
      ∀ kv ∈ scriptUpdates,
        (m'.scripts.getD []).lookup kv.1 = some kv.2 := by
  have hne_bp : pathJoin rootDir "biome.json"
      ≠ pathJoin rootDir "package.json" :=
    pathJoin_ne_of_ne rootDir (by decide)
  have hfil1 : CONFIG_FILES_eslint.filter
      (fun f => existsSync fs (pathJoin rootDir f)) = [] := by
    rw [List.filter_eq_nil_iff]
    intro f hf
    simp [hclean f (List.mem_append.mpr (Or.inl hf))]
  have hfil2 : CONFIG_FILES_prettier.filter
      (fun f => existsSync fs (pathJoin rootDir f)) = [] := by
    rw [List.filter_eq_nil_iff]
    intro f hf
    simp [hclean f (List.mem_append.mpr (Or.inr hf))]
  have hfind : findExistingConfigs rootDir fs = .ok ⟨[], []⟩ := by
    simp only [findExistingConfigs, hpkg, hfe, hfp, hfil1, hfil2]
    rfl
  have hback : backupStage ext rootDir ⟨[], []⟩ fs = .ok ([], fs) := rfl
  have hinst : installStage ext rootDir fs
      = .ok (applyManifestEffect rootDir fs ext.installEffect) := by
    rw [installStage]
    simp [hio]
  obtain ⟨M₂, hM2, hM2s, hM2e, hM2p, hM2o⟩ :=
    applyManifestEffect_pkg rootDir fs ext.installEffect M hpkg hti
  have hpkg3 : lookupFS (writeFS (applyManifestEffect rootDir fs
      ext.installEffect) (pathJoin rootDir "biome.json")
      (.conf generateBiomeConfig)) (pathJoin rootDir "package.json")
      = some (.json M₂) := by
    rw [lookupFS_writeFS, if_neg hne_bp]
    exact hM2
  have hupd : updatePackageJson rootDir (writeFS (applyManifestEffect
      rootDir fs ext.installEffect) (pathJoin rootDir "biome.json")
      (.conf generateBiomeConfig))
      = .ok ({ removedFields := removedFieldsOf M₂,
               oldScripts := M₂.scripts.getD [] },
             writeFS (writeFS (applyManifestEffect rootDir fs
               ext.installEffect) (pathJoin rootDir "biome.json")
               (.conf generateBiomeConfig))
               (pathJoin rootDir "package.json")
               (.json (updatedManifest M₂))) := by
    simp only [updatePackageJson, hpkg3]
  have hpkg4 : lookupFS (writeFS (writeFS (applyManifestEffect rootDir fs
      ext.installEffect) (pathJoin rootDir "biome.json")
      (.conf generateBiomeConfig)) (pathJoin rootDir "package.json")
      (.json (updatedManifest M₂))) (pathJoin rootDir "package.json")
      = some (.json (updatedManifest M₂)) := by
    rw [lookupFS_writeFS]
    simp
  obtain ⟨M₃, hM3, hM3s, _, _, _⟩ := removePackagesStage_pkg ext
    (detectPackageManager rootDir fs) rootDir _ (updatedManifest M₂)
    hpkg4 htu
  rw [main]
  simp only [hfind, hback, hinst, hupd]
  have hrfs : ∀ x : FS,
      removeFilesStage rootDir ⟨[], []⟩ x = ([], x) := fun _ => rfl
  simp only [hrfs]
  refine ⟨by trivial, ?_, M₃, hM3, ?_⟩
  · rw [removePackagesStage_frame ext _ rootDir _ _ hne_bp,
        lookupFS_writeFS, if_neg (fun h => hne_bp h.symm),
        lookupFS_writeFS, if_pos rfl]
  · intro kv hkv
    rw [hM3s]
    show ((some (applyScriptUpdates (M₂.scripts.getD []))).getD []).lookup
      kv.1 = some kv.2
    exact applyScriptUpdates_lookup (M₂.scripts.getD []) kv hkv

/-! ## Claim C7 -/

/-- C7: running the migration a second time on the result of a successful
run (with tame external tools whose install succeeds) does not error — it
exits 0 — and both the generated config document at `biome.json` and the
five fixed manifest script entries are identical after either run. -/
theorem migration_idempotent (ext1 ext2 : Ext) (rootDir : String) (fs0 : FS)
    (ht1 : TameExt ext1) (ht2 : TameExt ext2)
    (hio2 : ext2.installOk = true)
    (h0 : (main ext1 rootDir fs0).exitCode = 0) :
    (main ext2 rootDir (main ext1 rootDir fs0).fs).exitCode = 0 ∧
    lookupFS (main ext2 rootDir (main ext1 rootDir fs0).fs).fs
        (pathJoin rootDir "biome.json")
      = lookupFS (main ext1 rootDir fs0).fs
        (pathJoin rootDir "biome.json") ∧
    ∃ m1 m2 : Manifest,
      lookupFS (main ext1 rootDir fs0).fs (pathJoin rootDir "package.json")
        = some (.json m1) ∧
      lookupFS (main ext2 rootDir (main ext1 rootDir fs0).fs).fs
        (pathJoin rootDir "package.json") = some (.json m2) ∧
      ∀ kv ∈ scriptUpdates,
        (m1.scripts.getD []).lookup kv.1 = some kv.2 ∧
        (m2.scripts.getD []).lookup kv.1 = some kv.2 := by
  obtain ⟨M, hM, hMe, hMp, hMs, hbio, hclean⟩ :=
    main_post ext1 rootDir fs0 ht1.2 h0
  obtain ⟨hexit2, hbio2, m2, hm2, hm2s⟩ :=
    main_on_clean ext2 rootDir _ M ht2.1 ht2.2 hio2 hM hMe hMp hclean
  exact ⟨hexit2, by rw [hbio2, hbio], M, m2, hM, hm2,
    fun kv hkv => ⟨hMs kv hkv, hm2s kv hkv⟩⟩

/-- Concrete instance for C7: two consecutive runs with identity-effect
package managers on a minimal project. -/
theorem migration_idempotent_witness :
    (main
      { copyFail := fun _ => false, installOk := true, installEffect := id,
        uninstallOk := true, uninstallEffect := fun _ o => o } "p"
      [(pathJoin "p" "package.json", .json
        { dependencies := none, devDependencies := none, scripts := none,
          eslintConfig := false, prettier := false,
          others := [] })]).exitCode = 0 ∧
    (main
      { copyFail := fun _ => false, installOk := true, installEffect := id,
        uninstallOk := true, uninstallEffect := fun _ o => o } "p"
      (main
        { copyFail := fun _ => false, installOk := true, installEffect := id,
          uninstallOk := true, uninstallEffect := fun _ o => o } "p"
        [(pathJoin "p" "package.json", .json
          { dependencies := none, devDependencies := none, scripts := none,
            eslintConfig := false, prettier := false,
            others := [] })]).fs).exitCode = 0 ∧
    lookupFS (main
      { copyFail := fun _ => false, installOk := true, installEffect := id,
        uninstallOk := true, uninstallEffect := fun _ o => o } "p"
      (main
        { copyFail := fun _ => false, installOk := true, installEffect := id,
          uninstallOk := true, uninstallEffect := fun _ o => o } "p"
        [(pathJoin "p" "package.json", .json
          { dependencies := none, devDependencies := none, scripts := none,
            eslintConfig := false, prettier := false,
            others := [] })]).fs).fs (pathJoin "p" "biome.json")
      = lookupFS (main
        { copyFail := fun _ => false, installOk := true, installEffect := id,
          uninstallOk := true, uninstallEffect := fun _ o => o } "p"
        [(pathJoin "p" "package.json", .json
          { dependencies := none, devDependencies := none, scripts := none,
            eslintConfig := false, prettier := false,
            others := [] })]).fs (pathJoin "p" "biome.json") := by
  have htame : TameExt
      { copyFail := fun _ => false, installOk := true, installEffect := id,
        uninstallOk := true, uninstallEffect := fun _ o => o } := by
    constructor
    · intro m; exact ⟨m, rfl, rfl, rfl, rfl, rfl⟩
    · intro l m; exact ⟨m, rfl, rfl, rfl, rfl, rfl⟩
  have h0 : (main
      { copyFail := fun _ => false, installOk := true, installEffect := id,
        uninstallOk := true, uninstallEffect := fun _ o => o } "p"
      [(pathJoin "p" "package.json", .json
        { dependencies := none, devDependencies := none, scripts := none,
          eslintConfig := false, prettier := false,
          others := [] })]).exitCode = 0 := by rfl
  have h := migration_idempotent _ _ "p" _ htame htame rfl h0
  exact ⟨h0, h.1, h.2.1⟩

end BiomeMigration
